import Mathlib

/-!
# Selection balancing (`lib/action/balance.js`)

A shallow embedding of the balancing actions: the markup balancer
`balanceHTML`, the style balancer `balanceCSS` with its candidate builder
`getCSSRanges`, and the dispatching entry point `balance`.

Offsets are JavaScript numbers holding integers; they are modelled as `Int`.
The collaborators that live in other modules (tag matcher, style parser,
whitespace narrowing) are parameters of the embedding, collected in `Env`.
-/

namespace Balance

/-! ## Range primitive -/

/-- Modelled from the spec: the `Range` value of `assets/range`, a pair of
character offsets `(start, end)`. -/
structure Range where
  start : Int
  end_ : Int
  deriving DecidableEq, Repr

namespace Range

/-- Modelled from the spec: `range.create2(start, end)` of `assets/range`,
construction from two offsets. -/
def create2 (s e : Int) : Range := ⟨s, e⟩

/-- Modelled from the spec: `length()` of `assets/range`, the distance between
the two endpoints (`end - start` when `start ≤ end`). -/
def length (r : Range) : Int := (r.end_ - r.start).natAbs

/-- Modelled from the spec: `equal(other)` of `assets/range`, exact endpoint
equality. -/
def equal (r o : Range) : Bool := decide (r.start = o.start) && decide (r.end_ = o.end_)

/-- Modelled from the spec: `cmp(offset, 'lt', 'gte')` of `assets/range`,
`start < offset && end >= offset`. -/
def cmpLtGte (r : Range) (offset : Int) : Bool := decide (r.start < offset) && decide (r.end_ ≥ offset)

/-- Modelled from the spec: `valueOf()` of `assets/range`, the key under which
two ranges are duplicates: the endpoint pair. -/
def valueOf (r : Range) : Int × Int := (r.start, r.end_)

/-- Modelled from the spec: `substring(text)` of `assets/range`, the text
between the two offsets. -/
def substring (r : Range) (text : String) : String :=
  String.mk ((text.toList.drop r.start.toNat).take (r.end_.toNat - r.start.toNat))

/-- Truthiness of the property `item.length` (the method itself, which the
filter of `getCSSRanges` reads without calling it): a function object is
truthy whatever the range. -/
def lengthPropertyTruthy (_r : Range) : Bool := true

/-- Containment of ranges: `o` lies within `r`. -/
def includes (r o : Range) : Prop := r.start ≤ o.start ∧ o.end_ ≤ r.end_

instance (r o : Range) : Decidable (r.includes o) :=
  inferInstanceAs (Decidable (r.start ≤ o.start ∧ o.end_ ≤ r.end_))

end Range

/-! ## Collaborator data -/

/-- A match produced by `htmlMatcher.find`. `close` is the truthiness of the
`close` member (absent for unary tags). -/
structure Match where
  type : String
  close : Bool
  range : Range
  innerRange : Range
  outerRange : Range
  deriving DecidableEq, Repr

/-- A declaration of a parsed style rule, with the absolute positions the
balancer reads: `namePosition(true)`, `range(true)`, `valueRange(true)`. -/
structure CSSProperty where
  namePosition : Int
  range : Range
  valueRange : Range
  deriving DecidableEq, Repr

/-- A parsed style rule, with what the balancer reads from it: `range(true)`,
`_positions.contentStart` and `list()`. -/
structure CSSRule where
  range : Range
  contentStart : Int
  list : List CSSProperty
  deriving DecidableEq, Repr

/-- The collaborators of the balancer, which live in other modules. -/
structure Env where
  /-- `htmlMatcher.find(content, pos)` -/
  find : String → Int → Option Match
  /-- `utils.narrowToNonSpace(content, range)` -/
  narrowToNonSpace : String → Range → Range
  /-- `cssEditTree.parseFromPosition(content, pos, isBackward)` -/
  parseFromPosition : String → Int → Bool → Option CSSRule
  /-- `cssEditTree.propertyFromPosition(rule, pos)` -/
  propertyFromPosition : CSSRule → Int → Option CSSProperty
  /-- `cssEditTree.parse(source, {offset: offset})`; `Except.error` is a
  thrown parse error. -/
  parse : String → Int → Except String CSSRule

/-- The host editor as far as the balancer touches it. `calls` records the
`createSelection(start, end)` calls made so far, oldest first. -/
structure Editor where
  content : String
  syntaxName : String
  selection : Range
  calls : List (Int × Int)
  deriving DecidableEq, Repr

/-- Modelled from the spec: the host's `createSelection(start, end)`, which
makes `(start, end)` the selection; the call is recorded. -/
def Editor.createSelection (editor : Editor) (s e : Int) : Editor :=
  { editor with selection := ⟨s, e⟩, calls := editor.calls ++ [(s, e)] }

/-- The state threaded through the calls: the editor and the module variable
`lastMatch`. -/
structure Session where
  editor : Editor
  lastMatch : Option Match
  deriving DecidableEq, Repr

/-! ## Markup balancer -/

/-- The body of `if (lastMatch && sel.length()) … else …` in `balanceHTML`
for a validated `lastMatch = some m` and a non-empty selection. The result is
`none` for the early `return false`, otherwise the new value of `lastMatch`. -/
def refineMatch (env : Env) (content : String) (sel : Range) (direction : String)
    (m : Match) : Option (Option Match) :=
  if direction = "in" then
    if m.type = "tag" ∧ m.close = false then
      none
    else if m.range.equal m.outerRange then
      some (some { m with range := m.innerRange })
    else
      let narrowed := env.narrowToNonSpace content m.innerRange
      match env.find content (narrowed.start + 1) with
      | some f =>
        if f.range.equal sel && f.outerRange.equal sel then
          some (some { f with range := f.innerRange })
        else some (some f)
      | none => some none
  else
    if !m.innerRange.equal m.outerRange && m.range.equal m.innerRange && sel.equal m.range then
      some (some { m with range := m.outerRange })
    else
      match env.find content sel.start with
      | some f =>
        if f.range.equal sel && f.innerRange.equal sel then
          some (some { f with range := f.outerRange })
        else some (some f)
      | none => some none

/-- The function `balanceHTML(editor, direction)`; the module variable
`lastMatch` is read from and written to the session. -/
def balanceHTML (env : Env) (s : Session) (direction : String) : Bool × Session :=
  let content := s.editor.content
  let sel := s.editor.selection
  -- validate previous match
  let lastMatch : Option Match :=
    match s.lastMatch with
    | some m => if !m.range.equal sel then none else some m
    | none => none
  let stepped : Option (Option Match) :=
    match lastMatch with
    | some m =>
      if sel.length ≠ 0 then refineMatch env content sel direction m
      else some (env.find content sel.start)
    | none => some (env.find content sel.start)
  match stepped with
  | none => (false, { s with lastMatch := lastMatch })
  | some (some m) =>
    if !m.range.equal sel then
      (true, { editor := s.editor.createSelection m.range.start m.range.end_, lastMatch := some m })
    else (false, { s with lastMatch := none })
  | some none => (false, { s with lastMatch := none })

/-! ## Style balancer -/

/-- The first argument of `getCSSRanges`: the document text or an already
parsed rule. -/
inductive CSSSource where
  | text (content : String)
  | rule (r : CSSRule)

/-- The call `_.uniq(ranges, callback)`: keeps the first element of each key. -/
def uniqAux {α κ : Type} [DecidableEq κ] (key : α → κ) : List α → List κ → List α
  | [], _ => []
  | x :: rest, seen =>
    if key x ∈ seen then uniqAux key rest seen
    else x :: uniqAux key rest (key x :: seen)

/-- The call `_.uniq(ranges, callback)`. -/
def uniq {α κ : Type} [DecidableEq κ] (xs : List α) (key : α → κ) : List α :=
  uniqAux key xs []

/-- The function `getCSSRanges(content, pos)`; `none` is `null`. -/
def getCSSRanges (env : Env) (content : CSSSource) (pos : Int) : Option (List Range) :=
  let rule : Option CSSRule :=
    match content with
    | .text c =>
      match env.parseFromPosition c pos true with
      | some r => some r
      | none => env.parseFromPosition c pos false
    | .rule r => some r
  match rule with
  | none => none
  | some rule =>
    -- find all possible ranges
    let ranges : List Range := [rule.range]
    -- braces content
    let ranges := ranges ++
      [Range.create2 (rule.range.start + rule.contentStart) (rule.range.end_ - 1)]
    -- real content, from first property name to last property value
    let items := rule.list
    let ranges :=
      match items.head?, items.getLast? with
      | some first, some last =>
        ranges ++ [Range.create2 first.namePosition last.valueRange.end_]
      | _, _ => ranges
    let prop : Option CSSProperty :=
      match env.propertyFromPosition rule pos with
      | some p => some p
      | none => items.head?
    let ranges :=
      match prop with
      | some p => ranges ++ [p.range, p.valueRange]
      | none => ranges
    -- remove empty ranges
    let ranges := ranges.filter (fun item => item.lengthPropertyTruthy)
    some (uniq ranges Range.valueOf)

/-- The order of the comparator `a.length() - b.length()`. -/
def lenLe (a b : Range) : Prop := a.length ≤ b.length

instance : DecidableRel lenLe := fun a b => inferInstanceAs (Decidable (a.length ≤ b.length))

instance : IsTotal Range lenLe := ⟨fun a b => le_total a.length b.length⟩

instance : IsTrans Range lenLe :=
  ⟨fun a b c (hab : a.length ≤ b.length) (hbc : b.length ≤ c.length) => le_trans hab hbc⟩

/-- The call `ranges.sort(function(a, b) { return a.length() - b.length() })`,
as a stable sort. -/
def sortByLength (ranges : List Range) : List Range := List.insertionSort lenLe ranges

/-- The candidate list of `balanceCSS`: the result of `getCSSRanges` on the
document, the fallback on the selected fragment, and the sort by length. -/
def cssCandidates (env : Env) (editor : Editor) : Option (List Range) :=
  let content := editor.content
  let sel := editor.selection
  let ranges := getCSSRanges env (.text content) sel.start
  let ranges :=
    if ranges.isNone ∧ sel.length ≠ 0 then
      match env.parse (sel.substring content) sel.start with
      | .ok rule => getCSSRanges env (.rule rule) sel.start
      | .error _ => ranges
    else ranges
  match ranges with
  | none => none
  | some ranges => some (sortByLength ranges)

/-- The function `balanceCSS(editor, direction)`. -/
def balanceCSS (env : Env) (editor : Editor) (direction : String) : Bool × Editor :=
  let sel := editor.selection
  match cssCandidates env editor with
  | none => (false, editor)
  | some ranges =>
    let bestMatch : Option Range :=
      match ranges.find? (fun r => r.equal sel) with
      | some r => some r
      | none => ranges.find? (fun r => r.cmpLtGte sel.start)
    match bestMatch with
    | none => (false, editor)
    | some bestMatch =>
      let bestMatchIx : Int := (ranges.indexOf bestMatch : Nat)
      let bestMatchIx :=
        if bestMatch.equal sel then bestMatchIx + (if direction = "out" then 1 else -1)
        else bestMatchIx
      if bestMatchIx < 0 ∨ bestMatchIx ≥ ranges.length then (false, editor)
      else
        match ranges.get? bestMatchIx.toNat with
        | some r => (true, editor.createSelection r.start r.end_)
        | none => (false, editor)

/-! ## The layout of a parsed rule

The style parser is a collaborator outside this module. `CSSRule.Parsed` states
the layout that the ranges of a rule parsed from text `selector{name:value;…}`
have; the balancer itself never checks it. -/

/-- The rule `getCSSRanges` works on: the one passed in, or the one that
`parseFromPosition` finds backward or, failing that, forward. -/
def resolveRule (env : Env) (content : CSSSource) (pos : Int) : Option CSSRule :=
  match content with
  | .text c =>
    match env.parseFromPosition c pos true with
    | some r => some r
    | none => env.parseFromPosition c pos false
  | .rule r => some r

/-- The layout of a declaration `name:value;` in the text: its range starts at
the name, the name (at least one character) and the separator precede the
value, and after the value the range holds at most the terminating `;`. -/
def CSSProperty.Parsed (p : CSSProperty) : Prop :=
  p.range.start = p.namePosition ∧ p.namePosition + 2 ≤ p.valueRange.start ∧
  p.valueRange.start ≤ p.valueRange.end_ ∧ p.valueRange.end_ ≤ p.range.end_ ∧
  p.range.end_ ≤ p.valueRange.end_ + 1

instance (p : CSSProperty) : Decidable p.Parsed :=
  inferInstanceAs (Decidable (p.range.start = p.namePosition ∧
    p.namePosition + 2 ≤ p.valueRange.start ∧ p.valueRange.start ≤ p.valueRange.end_ ∧
    p.valueRange.end_ ≤ p.range.end_ ∧ p.range.end_ ≤ p.valueRange.end_ + 1))

/-- The layout of a rule `selector{declarations}` in the text: the brace content
`[start + contentStart, end - 1)` starts after the rule's start and is a range,
every declaration is laid out as a declaration inside the brace content, and
the declarations follow one another in the order of the list without
overlapping. -/
def CSSRule.Parsed (rule : CSSRule) : Prop :=
  1 ≤ rule.contentStart ∧ rule.range.start + rule.contentStart ≤ rule.range.end_ - 1 ∧
  (∀ p ∈ rule.list, p.Parsed ∧ rule.range.start + rule.contentStart ≤ p.range.start ∧
    p.range.end_ ≤ rule.range.end_ - 1) ∧
  rule.list.Pairwise (fun a b : CSSProperty => a.range.end_ ≤ b.range.start)

instance (rule : CSSRule) : Decidable rule.Parsed :=
  inferInstanceAs (Decidable (1 ≤ rule.contentStart ∧
    rule.range.start + rule.contentStart ≤ rule.range.end_ - 1 ∧
    (∀ p ∈ rule.list, p.Parsed ∧ rule.range.start + rule.contentStart ≤ p.range.start ∧
      p.range.end_ ≤ rule.range.end_ - 1) ∧
    rule.list.Pairwise (fun a b : CSSProperty => a.range.end_ ≤ b.range.start)))

/-! ## Entry point -/

/-- The method `toLowerCase()` of a string, on the letters `A`–`Z`. (The
letters outside ASCII, which JavaScript lowers too, never lower to a letter of
`in` or `out`.) -/
def toLowerCase (d : String) : String := String.mk (d.data.map Char.toLower)

/-- The expression `String((direction || 'out').toLowerCase())`; `none` is an
omitted argument, and the empty string is falsy. -/
def normalizeDirection (direction : Option String) : String :=
  match direction with
  | none => "out"
  | some d => if d = "" then "out" else toLowerCase d

/-- The action `balance(editor, direction)`. -/
def balance (env : Env) (s : Session) (direction : Option String) : Bool × Session :=
  let direction := normalizeDirection direction
  if s.editor.syntaxName = "css" then
    let r := balanceCSS env s.editor direction
    (r.1, { s with editor := r.2 })
  else
    balanceHTML env s direction

/-! ## Which step the markup balancer takes -/

/-- The match whose active range `balanceHTML` switches between its inner and
its outer range, when the call takes one of the four switching assignments
(`lastMatch.range = lastMatch.innerRange` twice under `'in'`,
`lastMatch.range = lastMatch.outerRange` twice otherwise): the validated
`lastMatch` for the in-place steps, the freshly found match for the other two.
`none` when the call takes no such step. -/
def switchedMatch (env : Env) (s : Session) (direction : String) : Option Match :=
  let content := s.editor.content
  let sel := s.editor.selection
  match s.lastMatch with
  | none => none
  | some m =>
    if m.range.equal sel = true ∧ sel.length ≠ 0 then
      if direction = "in" then
        if m.type = "tag" ∧ m.close = false then none
        else if m.range.equal m.outerRange then some m
        else
          match env.find content ((env.narrowToNonSpace content m.innerRange).start + 1) with
          | some f => if f.range.equal sel && f.outerRange.equal sel then some f else none
          | none => none
      else
        if !m.innerRange.equal m.outerRange && m.range.equal m.innerRange && sel.equal m.range then
          some m
        else
          match env.find content sel.start with
          | some f => if f.range.equal sel && f.innerRange.equal sel then some f else none
          | none => none
    else none

/-! ## Concrete collaborators for the scenarios -/

/-- A matcher that answers from a table of offsets, with no style parser. -/
def markupEnv (find : Int → Option Match) : Env where
  find := fun _ pos => find pos
  narrowToNonSpace := fun _ r => r
  parseFromPosition := fun _ _ _ => none
  propertyFromPosition := fun _ _ => none
  parse := fun _ _ => .error "no rule"

/-- A style parser that reports `rule` at every offset of its range, and as
the property at an offset the first declaration whose range holds it
(`start ≤ pos < end`). -/
def styleEnv (rule : CSSRule) : Env where
  find := fun _ _ => none
  narrowToNonSpace := fun _ r => r
  parseFromPosition := fun _ pos _ =>
    if rule.range.start ≤ pos ∧ pos ≤ rule.range.end_ then some rule else none
  propertyFromPosition := fun r pos =>
    r.list.find? (fun p => decide (p.range.start ≤ pos) && decide (pos < p.range.end_))
  parse := fun _ _ => .error "no rule"

/-- The `<p>` match of `<div><p>Hi</p></div>`, as found at offset 6. -/
def pMatch : Match := ⟨"tag", true, ⟨5, 14⟩, ⟨8, 10⟩, ⟨5, 14⟩⟩

/-- The `<div>` match of `<div><p>Hi</p></div>`, as found at offset 5. -/
def divMatch : Match := ⟨"tag", true, ⟨5, 14⟩, ⟨5, 14⟩, ⟨0, 20⟩⟩

/-- The matcher answers for `<div><p>Hi</p></div>` at offsets 6 and 5. -/
def nestedFind (pos : Int) : Option Match :=
  if pos = 6 then some pMatch else if pos = 5 then some divMatch else none

/-- The document `<div><p>Hi</p></div>` with the caret at offset 6 and no
session state. -/
def nestedSession : Session :=
  ⟨⟨"<div><p>Hi</p></div>", "html", ⟨6, 6⟩, []⟩, none⟩

/-- The unary `<br/>` match of the document `<br/>`. -/
def brMatch : Match := ⟨"tag", false, ⟨0, 5⟩, ⟨0, 5⟩, ⟨0, 5⟩⟩

/-- The matcher answers for the document `<br/>`: the tag at every offset of it. -/
def brFind (pos : Int) : Option Match :=
  if 0 ≤ pos ∧ pos ≤ 5 then some brMatch else none

/-- The document `<br/>` with the caret at offset 2 and no session state. -/
def brSession : Session := ⟨⟨"<br/>", "html", ⟨2, 2⟩, []⟩, none⟩

/-- The rule of `a{color:red;width:1px}`: range `[0,22)`, brace content from
offset 2, `color:red` with name at 2 and value `[8,11)`, `width:1px` with value
`[18,21)`. The declaration range of `color:red` ends at `e` (11 without the
semicolon, 12 with it). -/
def colorRule (e : Int) : CSSRule :=
  ⟨⟨0, 22⟩, 2, [⟨2, ⟨2, e⟩, ⟨8, 11⟩⟩, ⟨12, ⟨12, 21⟩, ⟨18, 21⟩⟩]⟩

/-- The document `a{color:red;width:1px}` with the given selection. -/
def colorSession (sel : Range) : Session :=
  ⟨⟨"a{color:red;width:1px}", "css", sel, []⟩, none⟩

/-- The session after one more `balance` call on the style scenario. -/
def colorStep (e : Int) (direction : String) (s : Session) : Session :=
  (balance (styleEnv (colorRule e)) s (some direction)).2

/-- The rule of `a{}`: range `[0,3)`, brace content from offset 2, no
declaration. -/
def emptyRule : CSSRule := ⟨⟨0, 3⟩, 2, []⟩

/-- The document `<div><p>Hi</p></div>` with `[5,14)` selected and the `<div>`
match, active at its inner range, as session state. -/
def divSession : Session :=
  ⟨⟨"<div><p>Hi</p></div>", "html", ⟨5, 14⟩, []⟩, some divMatch⟩

/-- The document `<br/>` with the tag selected and its match as session state. -/
def brSelected : Session := ⟨⟨"<br/>", "html", ⟨0, 5⟩, []⟩, some brMatch⟩

/-! ## Matcher queries of the markup balancer -/

/-- The offsets at which `balanceHTML` calls `htmlMatcher.find`, in call order:
none on the early `return false` and on the two in-place switches of
`lastMatch.range`, the offset `narrowed.start + 1` on the inward re-query, and
the selection start on the outward re-query and on the fresh query. -/
def matcherQueries (env : Env) (s : Session) (direction : String) : List Int :=
  let content := s.editor.content
  let sel := s.editor.selection
  let lastMatch : Option Match :=
    match s.lastMatch with
    | some m => if !m.range.equal sel then none else some m
    | none => none
  match lastMatch with
  | some m =>
    if sel.length ≠ 0 then
      if direction = "in" then
        if m.type = "tag" ∧ m.close = false then []
        else if m.range.equal m.outerRange then []
        else [(env.narrowToNonSpace content m.innerRange).start + 1]
      else
        if !m.innerRange.equal m.outerRange && m.range.equal m.innerRange && sel.equal m.range then
          []
        else [sel.start]
    else [sel.start]
  | none => [sel.start]

/-! ## Pair navigator -/

/-- Modelled from the spec: `inside(offset)` of `assets/range`, the containment
test of an offset in the half-open range, `start ≤ offset < end`. -/
def Range.inside (r : Range) (loc : Int) : Bool := decide (r.start ≤ loc) && decide (loc < r.end_)

/-- One member of a tag pair as `htmlMatcher.tag` reports it: its `range`. -/
structure TagPart where
  range : Range
  deriving DecidableEq, Repr

/-- A tag reported by `htmlMatcher.tag`: the `open` member and, unless the tag
is unary, the `close` member. -/
structure Tag where
  open_ : TagPart
  close : Option TagPart
  deriving DecidableEq, Repr

/-- The host editor as far as the pair navigator touches it. `caretCalls`
records the `setCaretPos(pos)` calls made so far, oldest first. -/
structure CaretEditor where
  content : String
  caretPos : Int
  caretCalls : List Int
  deriving DecidableEq, Repr

/-- Modelled from the spec: the host's `setCaretPos(pos)`, which moves the caret
to `pos`; the call is recorded. -/
def CaretEditor.setCaretPos (editor : CaretEditor) (pos : Int) : CaretEditor :=
  { editor with caretPos := pos, caretCalls := editor.caretCalls ++ [pos] }

/-- The UTF-16 code units of one character: itself below `0x10000`, a
surrogate pair from there on. -/
def charUnits (c : Char) : List Nat :=
  if c.toNat < 0x10000 then [c.toNat]
  else [0xD800 + (c.toNat - 0x10000) / 0x400, 0xDC00 + (c.toNat - 0x10000) % 0x400]

/-- The UTF-16 code units of a text, which are what a JavaScript string
indexes. -/
def utf16Units (content : String) : List Nat :=
  (content.data.map charUnits).flatten

/-- The code unit of the character `<`. -/
def ltUnit : Nat := 60

/-- The method `content.charAt(pos)`: the code unit at index `pos`; `none` is
the empty string returned outside the text. -/
def charAt (content : String) (pos : Int) : Option Nat :=
  if pos < 0 then none else (utf16Units content).get? pos.toNat

/-- The offset at which `goToMatchingPairAction` queries the tag matcher: one
past the caret when `content.charAt(caretPos) == '<'`. -/
def lookupOffset (editor : CaretEditor) : Int :=
  if charAt editor.content editor.caretPos = some ltUnit then editor.caretPos + 1
  else editor.caretPos

/-- The action `goToMatchingPairAction(editor)`; `tag` is
`htmlMatcher.tag(content, pos)`. -/
def goToMatchingPairAction (tag : String → Int → Option Tag) (editor : CaretEditor) :
    Bool × CaretEditor :=
  let content := editor.content
  let caretPos := lookupOffset editor
  match tag content caretPos with
  | some t =>
    match t.close with
    | some close =>
      -- exclude unary tags
      if t.open_.range.inside caretPos then
        (true, editor.setCaretPos close.range.start)
      else
        (true, editor.setCaretPos t.open_.range.start)
    | none => (false, editor)
  | none => (false, editor)

/-- The `<b>` pair of the document `<b>x</b>`: open tag `[0,3)`, close tag
`[4,8)`. -/
def bTag : Tag := ⟨⟨⟨0, 3⟩⟩, some ⟨⟨4, 8⟩⟩⟩

/-- The tag matcher answers for the document `<b>x</b>`: the pair at every
offset strictly inside it, nothing at its two ends. -/
def bTagMatcher (_content : String) (pos : Int) : Option Tag :=
  if 1 ≤ pos ∧ pos ≤ 7 then some bTag else none

/-- The document `<b>x</b>` with the caret at the given offset. -/
def bEditor (caret : Int) : CaretEditor := ⟨"<b>x</b>", caret, []⟩

/-- The text of U+1F600 followed by `<b>x</b>`: the first character takes two
code units, so the tag starts at offset 2. -/
def wideText : String := String.mk [Char.ofNat 0x1F600, '<', 'b', '>', 'x', '<', '/', 'b', '>']

/-- The `<b>` pair of `wideText`: open tag `[2,5)`, close tag `[6,10)`. -/
def wideTag : Tag := ⟨⟨⟨2, 5⟩⟩, some ⟨⟨6, 10⟩⟩⟩

/-- The tag matcher answers for `wideText`: the pair at every offset strictly
inside it. -/
def wideTagMatcher (_content : String) (pos : Int) : Option Tag :=
  if 3 ≤ pos ∧ pos ≤ 9 then some wideTag else none

/-- The document `wideText` with the caret at the given offset. -/
def wideEditor (caret : Int) : CaretEditor := ⟨wideText, caret, []⟩

/-- A style document `}{` with all of it selected; no rule is found in it. -/
def brokenStyle : Session := ⟨⟨"\x7d\x7b", "css", ⟨0, 2⟩, []⟩, none⟩

/-- The document `<div><p>Hi</p></div>` with the caret at offset 6 and a
`lastMatch` left over from another selection. -/
def staleSession : Session := ⟨⟨"<div><p>Hi</p></div>", "html", ⟨6, 6⟩, []⟩, some divMatch⟩

/-! ## Lemmas on ranges and lists -/

theorem Range.equal_iff (r o : Range) : r.equal o = true ↔ r = o := by
  cases r; cases o; simp [Range.equal]

theorem Range.equal_false_iff (r o : Range) : r.equal o = false ↔ r ≠ o := by
  rw [Ne, ← Range.equal_iff]; simp

theorem Range.valueOf_injective : Function.Injective Range.valueOf := by
  intro a b h; cases a; cases b; simp [Range.valueOf] at h; simp [h]

theorem uniqAux_spec {α κ : Type} [DecidableEq κ] (key : α → κ) (xs : List α) :
    ∀ seen : List κ, (∀ x ∈ uniqAux key xs seen, key x ∉ seen ∧ x ∈ xs) ∧
      ((uniqAux key xs seen).map key).Nodup := by
  induction xs with
  | nil => intro seen; simp [uniqAux]
  | cons a rest ih =>
    intro seen
    by_cases h : key a ∈ seen
    · simp only [uniqAux, h, if_true]
      refine ⟨fun x hx => ⟨((ih seen).1 x hx).1, List.mem_cons_of_mem _ ((ih seen).1 x hx).2⟩,
        (ih seen).2⟩
    · simp only [uniqAux, h, if_false]
      have h1 := (ih (key a :: seen)).1
      have h2 := (ih (key a :: seen)).2
      refine ⟨?_, ?_⟩
      · intro x hx
        rcases List.mem_cons.1 hx with rfl | hx
        · exact ⟨h, List.mem_cons_self _ _⟩
        · exact ⟨fun hs => (h1 x hx).1 (List.mem_cons_of_mem _ hs),
            List.mem_cons_of_mem _ (h1 x hx).2⟩
      · rw [List.map_cons, List.nodup_cons]
        refine ⟨?_, h2⟩
        intro hm
        obtain ⟨x, hx, hxa⟩ := List.mem_map.1 hm
        exact (h1 x hx).1 (by rw [hxa]; exact List.mem_cons_self _ _)

theorem uniq_nodup {α κ : Type} [DecidableEq κ] (key : α → κ) (xs : List α) :
    (uniq xs key).Nodup :=
  List.Nodup.of_map key (uniqAux_spec key xs []).2

theorem uniq_subset {α κ : Type} [DecidableEq κ] (key : α → κ) (xs : List α) :
    ∀ x ∈ uniq xs key, x ∈ xs :=
  fun x hx => ((uniqAux_spec key xs []).1 x hx).2

theorem getCSSRanges_nodup (env : Env) (c : CSSSource) (pos : Int) (l : List Range)
    (h : getCSSRanges env c pos = some l) : l.Nodup := by
  unfold getCSSRanges at h
  simp only at h
  split at h
  · exact absurd h (by simp)
  · simp only [Option.some.injEq] at h
    rw [← h]; exact uniq_nodup _ _

theorem sortByLength_nodup (l : List Range) (h : l.Nodup) : (sortByLength l).Nodup :=
  (List.perm_insertionSort lenLe l).nodup_iff.2 h

theorem sortByLength_sorted (l : List Range) : (sortByLength l).Sorted lenLe :=
  List.sorted_insertionSort lenLe l

theorem cssCandidates_nodup (env : Env) (editor : Editor) (l : List Range)
    (h : cssCandidates env editor = some l) : l.Nodup := by
  unfold cssCandidates at h
  simp only at h
  split at h
  · exact absurd h (by simp)
  · rename_i rs hrs
    simp only [Option.some.injEq] at h
    rw [← h]
    apply sortByLength_nodup
    split at hrs
    · split at hrs
      · exact getCSSRanges_nodup _ _ _ _ hrs
      · exact getCSSRanges_nodup _ _ _ _ hrs
    · exact getCSSRanges_nodup _ _ _ _ hrs

theorem cssCandidates_sorted (env : Env) (editor : Editor) (l : List Range)
    (h : cssCandidates env editor = some l) : l.Sorted lenLe := by
  unfold cssCandidates at h
  simp only at h
  split at h
  · exact absurd h (by simp)
  · simp only [Option.some.injEq] at h
    rw [← h]; exact sortByLength_sorted _


theorem find?_equal_of_mem (l : List Range) (x : Range) (h : x ∈ l) :
    l.find? (fun r => r.equal x) = some x := by
  induction l with
  | nil => simp at h
  | cons a t ih =>
    by_cases ha : a = x
    · subst ha; simp [List.find?, (Range.equal_iff a a).2 rfl]
    · have : a.equal x = false := (Range.equal_false_iff a x).2 ha
      simp only [List.find?, this]
      exact ih (by rcases List.mem_cons.1 h with h | h; exact absurd h.symm ha; exact h)

theorem find?_equal_none_of_not_mem (l : List Range) (x : Range) (h : x ∉ l) :
    l.find? (fun r => r.equal x) = none := by
  rw [List.find?_eq_none]
  intro y hy hyx
  exact h ((Range.equal_iff y x).1 hyx ▸ hy)

theorem indexOf_of_get? (l : List Range) (hl : l.Nodup) (i : Nat) (x : Range)
    (h : l.get? i = some x) : l.indexOf x = i := by
  rw [List.get?_eq_getElem?] at h
  obtain ⟨hi, hx⟩ := List.getElem?_eq_some_iff.1 h
  rw [← hx]; exact List.indexOf_getElem hl i hi

/-- The outcome of `balanceCSS` when the selection is the candidate at index `i`. -/
theorem balanceCSS_at_index (env : Env) (editor : Editor) (direction : String)
    (ranges : List Range) (i : Nat)
    (hc : cssCandidates env editor = some ranges)
    (hi : ranges.get? i = some editor.selection) :
    balanceCSS env editor direction =
      (if (i : Int) + (if direction = "out" then 1 else -1) < 0 ∨
          (i : Int) + (if direction = "out" then 1 else -1) ≥ ranges.length then (false, editor)
       else
        match ranges.get? ((i : Int) + (if direction = "out" then 1 else -1)).toNat with
        | some r => (true, editor.createSelection r.start r.end_)
        | none => (false, editor)) := by
  have hnd := cssCandidates_nodup env editor ranges hc
  have hmem : editor.selection ∈ ranges := List.get?_mem hi
  have hf := find?_equal_of_mem ranges editor.selection hmem
  have hix := indexOf_of_get? ranges hnd i editor.selection hi
  unfold balanceCSS
  simp only [hc, hf, hix, (Range.equal_iff editor.selection editor.selection).2 rfl, if_true]

/-! ## Lemmas on the two balancers -/

theorem balanceHTML_true (env : Env) (s : Session) (direction : String)
    (h : (balanceHTML env s direction).1 = true) :
    ∃ m : Match, balanceHTML env s direction =
        (true, ⟨s.editor.createSelection m.range.start m.range.end_, some m⟩) ∧
      m.range.equal s.editor.selection = false := by
  unfold balanceHTML at h ⊢
  simp only at h ⊢
  split
  · rename_i heq; rw [heq] at h; simp at h
  · rename_i m heq
    rw [heq] at h
    simp only at h
    by_cases hm : m.range.equal s.editor.selection = true
    · simp [hm] at h
    · simp only [Bool.not_eq_true] at hm
      exact ⟨m, by simp [hm], hm⟩
  · rename_i heq; rw [heq] at h; simp at h

theorem balanceCSS_not_candidate (env : Env) (editor : Editor) (direction : String)
    (ranges : List Range) (hc : cssCandidates env editor = some ranges)
    (hn : editor.selection ∉ ranges) :
    balanceCSS env editor direction =
      match ranges.find? (fun r => r.cmpLtGte editor.selection.start) with
      | some bm => (true, editor.createSelection bm.start bm.end_)
      | none => (false, editor) := by
  unfold balanceCSS
  simp only [hc, find?_equal_none_of_not_mem ranges editor.selection hn]
  cases hf : ranges.find? (fun r => r.cmpLtGte editor.selection.start) with
  | none => rfl
  | some bm =>
    have hmem : bm ∈ ranges := List.mem_of_find?_eq_some hf
    have hne : bm.equal editor.selection = false :=
      (Range.equal_false_iff _ _).2 (fun h => hn (h ▸ hmem))
    have hlt : ranges.indexOf bm < ranges.length := List.indexOf_lt_length.2 hmem
    have hget : ranges.get? (ranges.indexOf bm) = some bm := List.indexOf_get? hmem
    have h1 : ¬ (((ranges.indexOf bm : Nat) : Int) < 0 ∨
        ((ranges.indexOf bm : Nat) : Int) ≥ (ranges.length : Int)) := by omega
    simp only [hne, Bool.false_eq_true, if_false, h1, Int.toNat_ofNat, hget]

theorem balanceCSS_true (env : Env) (editor : Editor) (direction : String)
    (h : (balanceCSS env editor direction).1 = true) :
    ∃ r : Range, balanceCSS env editor direction =
        (true, editor.createSelection r.start r.end_) ∧ r ≠ editor.selection := by
  cases hc : cssCandidates env editor with
  | none => unfold balanceCSS at h; rw [hc] at h; simp at h
  | some ranges =>
    have hnd := cssCandidates_nodup env editor ranges hc
    by_cases hmem : editor.selection ∈ ranges
    · obtain ⟨i, hi⟩ := List.get?_of_mem hmem
      rw [balanceCSS_at_index env editor direction ranges i hc hi] at h ⊢
      obtain ⟨d, hd, hdef⟩ : ∃ d : Int, (d = 1 ∨ d = -1) ∧
          (if direction = "out" then (1 : Int) else -1) = d := by
        by_cases hdir : direction = "out"
        · exact ⟨1, Or.inl rfl, by simp [hdir]⟩
        · exact ⟨-1, Or.inr rfl, by simp [hdir]⟩
      rw [hdef] at h ⊢
      by_cases hb : (i : Int) + d < 0 ∨ (i : Int) + d ≥ ranges.length
      · rw [if_pos hb] at h; simp at h
      · rw [if_neg hb] at h ⊢
        cases hr : ranges.get? ((i : Int) + d).toNat with
        | none => rw [hr] at h; simp at h
        | some r =>
          refine ⟨r, rfl, ?_⟩
          intro hrs
          rw [hrs] at hr
          have h1 := indexOf_of_get? ranges hnd _ _ hr
          have h2 := indexOf_of_get? ranges hnd _ _ hi
          rw [h1] at h2
          omega
    · rw [balanceCSS_not_candidate env editor direction ranges hc hmem] at h ⊢
      cases hf : ranges.find? (fun r => r.cmpLtGte editor.selection.start) with
      | none => rw [hf] at h; simp at h
      | some bm =>
        exact ⟨bm, rfl, fun hb => hmem (hb ▸ List.mem_of_find?_eq_some hf)⟩

theorem normalizeDirection_out : normalizeDirection (some "out") = "out" := by decide

theorem normalizeDirection_in : normalizeDirection (some "in") = "in" := by decide


theorem Range.equal_self (r : Range) : r.equal r = true := (Range.equal_iff r r).2 rfl

theorem Range.length_ne_zero_of_includes (a b : Range) (hwf : a.start ≤ a.end_)
    (hne : a.length ≠ 0) (hinc : b.includes a) : b.length ≠ 0 := by
  unfold Range.length at hne ⊢
  unfold Range.includes at hinc
  omega

theorem Range.eq_of_nested_of_length_eq (a b : Range) (ha : a.start ≤ a.end_)
    (hb : b.start ≤ b.end_) (hn : a.includes b ∨ b.includes a) (hl : a.length = b.length) :
    a = b := by
  cases a; cases b
  unfold Range.length at hl
  unfold Range.includes at hn
  simp only at ha hb hn hl
  simp only [Range.mk.injEq]
  omega

theorem balance_true (env : Env) (s : Session) (direction : Option String)
    (h : (balance env s direction).1 = true) :
    ∃ r : Range, (balance env s direction).2.editor = s.editor.createSelection r.start r.end_ ∧
      r ≠ s.editor.selection := by
  unfold balance at h ⊢
  by_cases hs : s.editor.syntaxName = "css"
  · simp only [hs, if_true] at h ⊢
    obtain ⟨r, hr, hne⟩ := balanceCSS_true env s.editor _ h
    exact ⟨r, by rw [hr], hne⟩
  · simp only [hs, if_false] at h ⊢
    obtain ⟨m, hm, hne⟩ := balanceHTML_true env s _ h
    exact ⟨m.range, by rw [hm], (Range.equal_false_iff _ _).1 hne⟩

/-- The markup half of the round trip. -/
theorem markup_round_trip (env : Env) (s : Session) (m : Match)
    (hl : s.lastMatch = some m) (hclose : m.close = true)
    (hio : m.innerRange ≠ m.outerRange) (hinc : m.outerRange.includes m.innerRange)
    (hr : m.range = m.innerRange) (hsel : m.innerRange = s.editor.selection)
    (hwf : s.editor.selection.start ≤ s.editor.selection.end_)
    (hne : s.editor.selection.length ≠ 0) :
    balanceHTML env s "out" =
      (true, ⟨s.editor.createSelection m.outerRange.start m.outerRange.end_,
        some { m with range := m.outerRange }⟩) ∧
    balanceHTML env ⟨s.editor.createSelection m.outerRange.start m.outerRange.end_,
        some { m with range := m.outerRange }⟩ "in" =
      (true, ⟨(s.editor.createSelection m.outerRange.start m.outerRange.end_).createSelection
          m.innerRange.start m.innerRange.end_,
        some { m with range := m.innerRange }⟩) := by
  have hoi : ¬ ("out" = "in") := by decide
  have hio' : m.innerRange.equal m.outerRange = false := (Range.equal_false_iff _ _).2 hio
  have hoi' : m.outerRange.equal m.innerRange = false :=
    (Range.equal_false_iff _ _).2 (Ne.symm hio)
  have hlen : m.outerRange.length ≠ 0 :=
    Range.length_ne_zero_of_includes _ _ (hsel ▸ hwf) (hsel ▸ hne) hinc
  constructor
  · unfold balanceHTML
    simp only [hl, hr, hsel.symm ▸ Range.equal_self m.innerRange, ← hsel]
    simp [refineMatch, hoi, hio', hoi', hr, Range.equal_self, hsel ▸ hne]
  · unfold balanceHTML
    simp [Editor.createSelection, refineMatch, Range.equal_self, hclose, hlen, hio', hoi']

theorem refineMatch_not_in (env : Env) (content : String) (sel : Range) (direction : String)
    (m : Match) (h : direction ≠ "in") :
    refineMatch env content sel direction m = refineMatch env content sel "out" m := by
  have hoi : ¬ ("out" = "in") := by decide
  unfold refineMatch
  simp only [h, hoi, if_false]

theorem balanceHTML_not_in (env : Env) (s : Session) (direction : String)
    (h : direction ≠ "in") : balanceHTML env s direction = balanceHTML env s "out" := by
  unfold balanceHTML
  simp only [refineMatch_not_in env _ _ direction _ h]

theorem balanceCSS_not_out (env : Env) (editor : Editor) (direction : String)
    (h : direction ≠ "out") : balanceCSS env editor direction = balanceCSS env editor "in" := by
  have hio : ¬ ("in" = "out") := by decide
  unfold balanceCSS
  simp only [h, hio, if_false]

theorem balanceHTML_unary_in (env : Env) (s : Session) (m : Match)
    (ht : m.type = "tag") (hcl : m.close = false) (hr : m.range = s.editor.selection)
    (h : (s.lastMatch = some m ∧ s.editor.selection.length ≠ 0) ∨
      ((∀ l : Match, s.lastMatch = some l →
          l.range ≠ s.editor.selection ∨ s.editor.selection.length = 0) ∧
        env.find s.editor.content s.editor.selection.start = some m)) :
    (balanceHTML env s "in").1 = false ∧ (balanceHTML env s "in").2.editor = s.editor := by
  have heq : m.range.equal s.editor.selection = true := (Range.equal_iff _ _).2 hr
  rcases h with ⟨hl, hne⟩ | ⟨hno, hf⟩
  · unfold balanceHTML
    simp [hl, heq, hne, refineMatch, ht, hcl]
  · unfold balanceHTML
    cases hl : s.lastMatch with
    | none => simp [hf, heq]
    | some l =>
      rcases hno l hl with hne | hz
      · have : l.range.equal s.editor.selection = false := (Range.equal_false_iff _ _).2 hne
        simp [this, hf, heq]
      · by_cases hle : l.range.equal s.editor.selection = true
        · simp [hle, hz, hf, heq]
        · simp [hle, hf, heq]

/-- What the switching steps compute: the refined `lastMatch` is `m` with its
active range switched, and the selection is the range `m` is switched from. -/
theorem switchedMatch_spec (env : Env) (s : Session) (direction : String) (m : Match)
    (hsw : switchedMatch env s direction = some m) :
    ∃ l : Match, s.lastMatch = some l ∧ l.range.equal s.editor.selection = true ∧
      s.editor.selection.length ≠ 0 ∧
      (direction = "in" →
        refineMatch env s.editor.content s.editor.selection direction l
          = some (some { m with range := m.innerRange }) ∧
        m.outerRange = s.editor.selection) ∧
      (direction ≠ "in" →
        refineMatch env s.editor.content s.editor.selection direction l
          = some (some { m with range := m.outerRange }) ∧
        m.innerRange = s.editor.selection) := by
  unfold switchedMatch at hsw
  simp only at hsw
  cases hl : s.lastMatch with
  | none => rw [hl] at hsw; simp at hsw
  | some l =>
    rw [hl] at hsw
    simp only at hsw
    by_cases hv : l.range.equal s.editor.selection = true ∧ s.editor.selection.length ≠ 0
    · rw [if_pos hv] at hsw
      obtain ⟨hle, hne⟩ := hv
      have hls : l.range = s.editor.selection := (Range.equal_iff _ _).1 hle
      refine ⟨l, rfl, hle, hne, ?_, ?_⟩
      · intro hd
        subst hd
        simp only [if_true] at hsw
        by_cases hu : l.type = "tag" ∧ l.close = false
        · rw [if_pos hu] at hsw; simp at hsw
        · rw [if_neg hu] at hsw
          by_cases ho : l.range.equal l.outerRange = true
          · rw [if_pos ho] at hsw
            simp only [Option.some.injEq] at hsw
            subst hsw
            have hlo : l.range = l.outerRange := (Range.equal_iff _ _).1 ho
            refine ⟨?_, by rw [← hlo, hls]⟩
            unfold refineMatch
            simp only [if_true, if_neg hu, if_pos ho]
          · rw [if_neg ho] at hsw
            cases hf : env.find s.editor.content
                ((env.narrowToNonSpace s.editor.content l.innerRange).start + 1) with
            | none => rw [hf] at hsw; simp at hsw
            | some f =>
              rw [hf] at hsw
              simp only at hsw
              by_cases hc : (f.range.equal s.editor.selection &&
                  f.outerRange.equal s.editor.selection) = true
              · rw [if_pos hc] at hsw
                simp only [Option.some.injEq] at hsw
                subst hsw
                have hfo : f.outerRange = s.editor.selection :=
                  (Range.equal_iff _ _).1 (Bool.and_eq_true_iff.1 hc).2
                refine ⟨?_, hfo⟩
                unfold refineMatch
                simp only [if_true, if_neg hu, if_neg ho, hf, if_pos hc]
              · rw [if_neg hc] at hsw; simp at hsw
      · intro hd
        rw [if_neg hd] at hsw
        by_cases hc : (!l.innerRange.equal l.outerRange && l.range.equal l.innerRange &&
            s.editor.selection.equal l.range) = true
        · rw [if_pos hc] at hsw
          simp only [Option.some.injEq] at hsw
          subst hsw
          have hli : l.range = l.innerRange :=
            (Range.equal_iff _ _).1 (Bool.and_eq_true_iff.1 (Bool.and_eq_true_iff.1 hc).1).2
          refine ⟨?_, by rw [← hli, hls]⟩
          unfold refineMatch
          simp only [if_neg hd, if_pos hc]
        · rw [if_neg hc] at hsw
          cases hf : env.find s.editor.content s.editor.selection.start with
          | none => rw [hf] at hsw; simp at hsw
          | some f =>
            rw [hf] at hsw
            simp only at hsw
            by_cases hc2 : (f.range.equal s.editor.selection &&
                f.innerRange.equal s.editor.selection) = true
            · rw [if_pos hc2] at hsw
              simp only [Option.some.injEq] at hsw
              subst hsw
              have hfi : f.innerRange = s.editor.selection :=
                (Range.equal_iff _ _).1 (Bool.and_eq_true_iff.1 hc2).2
              refine ⟨?_, hfi⟩
              unfold refineMatch
              simp only [if_neg hd, if_neg hc, hf, if_pos hc2]
            · rw [if_neg hc2] at hsw; simp at hsw
    · rw [if_neg hv] at hsw; simp at hsw

/-- The outcome of `balanceHTML` once the refinement of a validated
`lastMatch` is known. -/
theorem balanceHTML_of_refine (env : Env) (s : Session) (direction : String) (l m : Match)
    (hl : s.lastMatch = some l) (hle : l.range.equal s.editor.selection = true)
    (hne : s.editor.selection.length ≠ 0)
    (hr : refineMatch env s.editor.content s.editor.selection direction l = some (some m)) :
    balanceHTML env s direction =
      if !m.range.equal s.editor.selection then
        (true, ⟨s.editor.createSelection m.range.start m.range.end_, some m⟩)
      else (false, { s with lastMatch := none }) := by
  unfold balanceHTML
  simp only [hl, hle, Bool.not_true, Bool.false_eq_true, if_false, hne, ne_eq, not_false_eq_true,
    if_true, hr]

/-! ## Lemmas on failure, session state and matcher queries -/

/-- The outcome of `balanceHTML` on a validated unary `lastMatch` under `in`:
the early `return false`, with the session untouched. -/
theorem balanceHTML_unary_in_eq (env : Env) (s : Session) (m : Match)
    (hl : s.lastMatch = some m) (ht : m.type = "tag") (hcl : m.close = false)
    (hr : m.range = s.editor.selection) (hne : s.editor.selection.length ≠ 0) :
    balanceHTML env s "in" = (false, s) := by
  have heq : m.range.equal s.editor.selection = true := (Range.equal_iff _ _).2 hr
  cases s with
  | mk editor lastMatch =>
    simp only at hl hr hne heq
    subst hl
    unfold balanceHTML
    simp [heq, hne, refineMatch, ht, hcl]

/-- A failing `balanceHTML` leaves the editor as it was. -/
theorem balanceHTML_false_editor (env : Env) (s : Session) (direction : String)
    (h : (balanceHTML env s direction).1 = false) :
    (balanceHTML env s direction).2.editor = s.editor := by
  unfold balanceHTML at h ⊢
  simp only at h ⊢
  split
  · rfl
  · rename_i m heq
    rw [heq] at h
    simp only at h
    by_cases hm : m.range.equal s.editor.selection = true
    · simp [hm]
    · simp only [Bool.not_eq_true] at hm
      simp [hm] at h
  · rfl

/-- The two shapes of an outcome of `balanceCSS`: failure with the editor
untouched, or success with one `createSelection` call. -/
theorem balanceCSS_cases (env : Env) (editor : Editor) (direction : String) :
    balanceCSS env editor direction = (false, editor) ∨
    ∃ r : Range, balanceCSS env editor direction =
      (true, editor.createSelection r.start r.end_) := by
  unfold balanceCSS
  simp only
  repeat' split
  all_goals first | exact Or.inl rfl | exact Or.inr ⟨_, rfl⟩

/-- A failing `balanceCSS` leaves the editor as it was. -/
theorem balanceCSS_false (env : Env) (editor : Editor) (direction : String)
    (h : (balanceCSS env editor direction).1 = false) :
    balanceCSS env editor direction = (false, editor) := by
  rcases balanceCSS_cases env editor direction with h1 | ⟨r, h1⟩
  · exact h1
  · rw [h1] at h; simp at h

/-- A `lastMatch` whose range is not the selection is discarded by the
validation: the call proceeds as without it. -/
theorem balanceHTML_discard (env : Env) (editor : Editor) (m : Match) (direction : String)
    (h : m.range ≠ editor.selection) :
    balanceHTML env ⟨editor, some m⟩ direction = balanceHTML env ⟨editor, none⟩ direction := by
  have hne : m.range.equal editor.selection = false := (Range.equal_false_iff _ _).2 h
  unfold balanceHTML
  simp only [hne, Bool.not_false, if_true]

/-- What a failing `balanceHTML` leaves in `lastMatch`: nothing, except on the
early `return false` for a validated unary tag under `in`. -/
theorem balanceHTML_false_lastMatch (env : Env) (s : Session) (direction : String)
    (h : (balanceHTML env s direction).1 = false) :
    (balanceHTML env s direction).2.lastMatch = none ∨
    (direction = "in" ∧ ∃ m : Match, s.lastMatch = some m ∧ m.range = s.editor.selection ∧
      s.editor.selection.length ≠ 0 ∧ m.type = "tag" ∧ m.close = false ∧
      (balanceHTML env s direction).2.lastMatch = some m) := by
  cases hl : s.lastMatch with
  | none =>
    left
    unfold balanceHTML at h ⊢
    simp only [hl] at h ⊢
    cases hf : env.find s.editor.content s.editor.selection.start with
    | none => rfl
    | some f =>
      simp only [hf] at h ⊢
      by_cases hm : f.range.equal s.editor.selection = true
      · simp [hm]
      · simp only [Bool.not_eq_true] at hm
        simp [hm] at h
  | some l =>
    by_cases hv : l.range.equal s.editor.selection = true
    · by_cases hne : s.editor.selection.length = 0
      · left
        unfold balanceHTML at h ⊢
        simp only [hl, hv, hne] at h ⊢
        cases hf : env.find s.editor.content s.editor.selection.start with
        | none => simp
        | some f =>
          simp only [hf] at h ⊢
          by_cases hm : f.range.equal s.editor.selection = true
          · simp [hm]
          · simp only [Bool.not_eq_true] at hm
            simp [hm] at h
      · cases hr : refineMatch env s.editor.content s.editor.selection direction l with
        | none =>
          right
          have hd : direction = "in" ∧ l.type = "tag" ∧ l.close = false := by
            unfold refineMatch at hr
            by_cases hd : direction = "in"
            · by_cases hu : l.type = "tag" ∧ l.close = false
              · exact ⟨hd, hu⟩
              · simp only [hd, if_true, if_neg hu] at hr
                repeat' split at hr
                all_goals simp at hr
            · simp only [if_neg hd] at hr
              repeat' split at hr
              all_goals simp at hr
          refine ⟨hd.1, l, rfl, (Range.equal_iff _ _).1 hv, hne, hd.2.1, hd.2.2, ?_⟩
          unfold balanceHTML
          simp [hl, hv, hne, hr]
        | some o =>
          left
          unfold balanceHTML at h ⊢
          simp only [hl, hv, Bool.not_true, Bool.false_eq_true, if_false, ne_eq, hne,
            not_false_eq_true, if_true, hr] at h ⊢
          cases o with
          | none => rfl
          | some f =>
            simp only at h ⊢
            by_cases hm : f.range.equal s.editor.selection = true
            · simp [hm]
            · simp only [Bool.not_eq_true] at hm
              simp [hm] at h
    · left
      simp only [Bool.not_eq_true] at hv
      unfold balanceHTML at h ⊢
      simp only [hl, hv, Bool.not_false, if_true] at h ⊢
      cases hf : env.find s.editor.content s.editor.selection.start with
      | none => rfl
      | some f =>
        simp only [hf] at h ⊢
        by_cases hm : f.range.equal s.editor.selection = true
        · simp [hm]
        · simp only [Bool.not_eq_true] at hm
          simp [hm] at h

theorem Range.cmpLtGte_iff (r : Range) (x : Int) :
    r.cmpLtGte x = true ↔ r.start < x ∧ x ≤ r.end_ := by
  simp [Range.cmpLtGte]

/-- The first element of a list that satisfies `p`, given by a split of the list. -/
theorem find?_of_split (l before after : List Range) (r : Range) (p : Range → Bool)
    (hsplit : l = before ++ r :: after) (hb : ∀ a ∈ before, p a = false) (hr : p r = true) :
    l.find? p = some r := by
  rw [List.find?_eq_some]
  exact ⟨hr, before, after, hsplit, fun a ha => by simp [hb a ha]⟩

/-- In a list sorted by length, the element after a prefix is no longer than any
element outside that prefix. -/
theorem lenLe_of_split (l before after : List Range) (r r' : Range)
    (hs : l.Sorted lenLe) (hsplit : l = before ++ r :: after) (hmem : r' ∈ l)
    (hnb : r' ∉ before) : r.length ≤ r'.length := by
  subst hsplit
  have h2 : (r :: after).Pairwise lenLe := (List.pairwise_append.1 hs).2.1
  rcases List.mem_append.1 hmem with h | h
  · exact absurd h hnb
  · rcases List.mem_cons.1 h with h | h
    · rw [h]
    · exact (List.pairwise_cons.1 h2).1 r' h

/-- The outcome of `balanceHTML` depends on the matcher only through its answers
at the offsets of `matcherQueries`. -/
theorem balanceHTML_congr_queries (env env' : Env) (s : Session) (direction : String)
    (hn : ∀ r, env'.narrowToNonSpace s.editor.content r = env.narrowToNonSpace s.editor.content r)
    (hq : ∀ p ∈ matcherQueries env s direction,
      env'.find s.editor.content p = env.find s.editor.content p) :
    balanceHTML env' s direction = balanceHTML env s direction := by
  cases hl : s.lastMatch with
  | none =>
    have h := hq s.editor.selection.start (by simp [matcherQueries, hl])
    unfold balanceHTML
    simp only [hl, h]
  | some l =>
    by_cases hv : l.range.equal s.editor.selection = true
    · by_cases hne : s.editor.selection.length = 0
      · have h := hq s.editor.selection.start (by simp [matcherQueries, hl, hv, hne])
        unfold balanceHTML
        simp [hl, hv, hne, h]
      · have hr : refineMatch env' s.editor.content s.editor.selection direction l =
            refineMatch env s.editor.content s.editor.selection direction l := by
          unfold refineMatch
          by_cases hd : direction = "in"
          · by_cases hu : l.type = "tag" ∧ l.close = false
            · simp only [hd, if_true, if_pos hu]
            · by_cases ho : l.range.equal l.outerRange = true
              · simp only [hd, if_true, if_neg hu, if_pos ho]
              · have h := hq ((env.narrowToNonSpace s.editor.content l.innerRange).start + 1)
                  (by simp [matcherQueries, hl, hv, hne, hd, hu, ho])
                simp only [hd, if_true, if_neg hu, if_neg ho, hn, h]
          · by_cases hc : (!l.innerRange.equal l.outerRange && l.range.equal l.innerRange &&
                s.editor.selection.equal l.range) = true
            · simp only [if_neg hd, if_pos hc]
            · have h := hq s.editor.selection.start
                (by simp only [matcherQueries, hl, hv]; simp [hne, hd, hc])
              simp only [if_neg hd, if_neg hc, h]
        unfold balanceHTML
        simp [hl, hv, hne, hr]
    · simp only [Bool.not_eq_true] at hv
      have h := hq s.editor.selection.start (by simp [matcherQueries, hl, hv])
      unfold balanceHTML
      simp [hl, hv, h]

/-! ## Lemmas on the layout of a rule, the direction and the lookup offset -/

/-- What the code alone gives for the sorted candidate list: it is ascending in
length (for `i < j`, `length(ranges[i]) ≤ length(ranges[j])`), no two candidates
have equal endpoints, and the lengths of two candidates are strictly ascending
whenever both are well formed (`start ≤ end`) and one contains the other. -/
theorem candidates_ascending (env : Env) (c : CSSSource) (pos : Int) (l : List Range)
    (h : getCSSRanges env c pos = some l) (i j : Nat) (a b : Range) (hij : i < j)
    (ha : (sortByLength l).get? i = some a) (hb : (sortByLength l).get? j = some b) :
    a.length ≤ b.length ∧ a ≠ b ∧
    (a.start ≤ a.end_ ∧ b.start ≤ b.end_ ∧ (a.includes b ∨ b.includes a) →
      a.length < b.length) := by
  have hnd : (sortByLength l).Nodup := sortByLength_nodup l (getCSSRanges_nodup env c pos l h)
  have hs : (sortByLength l).Pairwise lenLe := sortByLength_sorted l
  rw [List.get?_eq_getElem?] at ha hb
  obtain ⟨hi, hai⟩ := List.getElem?_eq_some_iff.1 ha
  obtain ⟨hj, hbj⟩ := List.getElem?_eq_some_iff.1 hb
  have hle : a.length ≤ b.length := by
    have := List.pairwise_iff_getElem.1 hs i j hi hj hij
    rw [hai, hbj] at this
    exact this
  have hne : a ≠ b := by
    intro hab
    exact List.nodup_iff_getElem?_ne_getElem?.1 hnd i j hij hj (by rw [ha, hb, hab])
  refine ⟨hle, hne, ?_⟩
  rintro ⟨hwa, hwb, hn⟩
  rcases lt_or_eq_of_le hle with hlt | heq
  · exact hlt
  · exact absurd (Range.eq_of_nested_of_length_eq a b hwa hwb hn heq) hne

/-- How the two balancers read the direction: for a markup document, `balance`
with any direction whose normalised form is not `in` does exactly what
`balance('out')` does; for a `css` document, `balance` with any direction whose
normalised form is not `out` does exactly what `balance('in')` does. -/
theorem unknown_direction (env : Env) (s : Session) (direction : Option String) :
    (s.editor.syntaxName ≠ "css" → normalizeDirection direction ≠ "in" →
      balance env s direction = balance env s (some "out")) ∧
    (s.editor.syntaxName = "css" → normalizeDirection direction ≠ "out" →
      balance env s direction = balance env s (some "in")) := by
  constructor
  · intro hs hd
    unfold balance
    simp only [hs, if_false, normalizeDirection_out]
    exact balanceHTML_not_in env s _ hd
  · intro hs hd
    unfold balance
    simp only [hs, if_true, normalizeDirection_in]
    rw [balanceCSS_not_out env s.editor _ hd]

/-- In a list laid out in order, every element is the first one or starts after
the first one ends. -/
theorem head_or_after (l : List CSSProperty) (f p : CSSProperty)
    (ho : l.Pairwise (fun a b : CSSProperty => a.range.end_ ≤ b.range.start))
    (hf : l.head? = some f) (hp : p ∈ l) : p = f ∨ f.range.end_ ≤ p.range.start := by
  cases l with
  | nil => simp at hp
  | cons a t =>
    simp only [List.head?_cons, Option.some.injEq] at hf
    subst hf
    rcases List.mem_cons.1 hp with h | h
    · exact Or.inl h
    · exact Or.inr ((List.pairwise_cons.1 ho).1 p h)

/-- In a list laid out in order, every element is the last one or ends before
the last one starts. -/
theorem last_or_before (l : List CSSProperty) (la p : CSSProperty)
    (ho : l.Pairwise (fun a b : CSSProperty => a.range.end_ ≤ b.range.start))
    (hl : l.getLast? = some la) (hp : p ∈ l) : p = la ∨ p.range.end_ ≤ la.range.start := by
  induction l with
  | nil => simp at hp
  | cons a t ih =>
    cases t with
    | nil =>
      simp only [List.getLast?_singleton, Option.some.injEq] at hl
      simp only [List.mem_singleton] at hp
      exact Or.inl (hp.trans hl)
    | cons b u =>
      have hl2 : (b :: u).getLast? = some la := by
        rw [List.getLast?_cons_cons] at hl; exact hl
      have hmem : la ∈ b :: u := List.mem_of_getLast?_eq_some hl2
      rcases List.mem_cons.1 hp with h | h
      · right
        rw [h]
        exact (List.pairwise_cons.1 ho).1 la hmem
      · exact ih (List.pairwise_cons.1 ho).2 hl2 h

/-- The ranges `getCSSRanges` can return for a rule: the rule, the brace
content, the span of the declarations, and the range and value range of the
property at the position (or of the first declaration). -/
theorem getCSSRanges_mem (env : Env) (c : CSSSource) (pos : Int) (rule : CSSRule)
    (l : List Range) (hr : resolveRule env c pos = some rule)
    (h : getCSSRanges env c pos = some l) (a : Range) (ha : a ∈ l) :
    a = rule.range ∨
    a = Range.create2 (rule.range.start + rule.contentStart) (rule.range.end_ - 1) ∨
    (∃ f la, rule.list.head? = some f ∧ rule.list.getLast? = some la ∧
      a = Range.create2 f.namePosition la.valueRange.end_) ∨
    (∃ p, (env.propertyFromPosition rule pos = some p ∨
        (env.propertyFromPosition rule pos = none ∧ rule.list.head? = some p)) ∧
      (a = p.range ∨ a = p.valueRange)) := by
  unfold getCSSRanges at h
  unfold resolveRule at hr
  rw [hr] at h
  simp only [Option.some.injEq] at h
  rw [← h] at ha
  have ha2 := List.mem_filter.1 (uniq_subset _ _ a ha) |>.1
  clear ha h
  cases hh : rule.list.head? with
  | none =>
    have hnil : rule.list = [] := List.head?_eq_none_iff.1 hh
    cases hp : env.propertyFromPosition rule pos with
    | none =>
      simp [hh, hp, hnil] at ha2
      rcases ha2 with h | h
      · exact Or.inl h
      · exact Or.inr (Or.inl h)
    | some p =>
      simp [hh, hp, hnil] at ha2
      rcases ha2 with h | h | h | h
      · exact Or.inl h
      · exact Or.inr (Or.inl h)
      · exact Or.inr (Or.inr (Or.inr ⟨p, Or.inl rfl, Or.inl h⟩))
      · exact Or.inr (Or.inr (Or.inr ⟨p, Or.inl rfl, Or.inr h⟩))
  | some f =>
    cases hla : rule.list.getLast? with
    | none =>
      have hnil : rule.list = [] := List.getLast?_eq_none_iff.1 hla
      rw [hnil] at hh; simp at hh
    | some la =>
      cases hp : env.propertyFromPosition rule pos with
      | none =>
        simp [hh, hla, hp] at ha2
        rcases ha2 with h | h | h | h | h
        · exact Or.inl h
        · exact Or.inr (Or.inl h)
        · exact Or.inr (Or.inr (Or.inl ⟨f, la, rfl, rfl, h⟩))
        · exact Or.inr (Or.inr (Or.inr ⟨f, Or.inr ⟨rfl, rfl⟩, Or.inl h⟩))
        · exact Or.inr (Or.inr (Or.inr ⟨f, Or.inr ⟨rfl, rfl⟩, Or.inr h⟩))
      | some p =>
        simp [hh, hla, hp] at ha2
        rcases ha2 with h | h | h | h | h
        · exact Or.inl h
        · exact Or.inr (Or.inl h)
        · exact Or.inr (Or.inr (Or.inl ⟨f, la, rfl, rfl, h⟩))
        · exact Or.inr (Or.inr (Or.inr ⟨p, Or.inl rfl, Or.inl h⟩))
        · exact Or.inr (Or.inr (Or.inr ⟨p, Or.inl rfl, Or.inr h⟩))


theorem Range.ext_iff (a b : Range) : a = b ↔ a.start = b.start ∧ a.end_ = b.end_ := by
  cases a; cases b; simp

/-- For a rule laid out as a parsed rule, two candidates of equal length are the
same range. -/
theorem parsed_length_inj (env : Env) (c : CSSSource) (pos : Int) (rule : CSSRule)
    (l : List Range) (hr : resolveRule env c pos = some rule) (hwf : rule.Parsed)
    (hprop : ∀ p, env.propertyFromPosition rule pos = some p → p ∈ rule.list)
    (h : getCSSRanges env c pos = some l) (a b : Range) (ha : a ∈ l) (hb : b ∈ l)
    (hlen : a.length = b.length) : a = b := by
  obtain ⟨hcs, hB, hall, hord⟩ := hwf
  have ma := getCSSRanges_mem env c pos rule l hr h a ha
  have mb := getCSSRanges_mem env c pos rule l hr h b hb
  rw [Range.ext_iff]
  unfold Range.length at hlen
  cases hh : rule.list.head? with
  | none =>
    have hnil : rule.list = [] := List.head?_eq_none_iff.1 hh
    have hnp : env.propertyFromPosition rule pos = none := by
      cases hp : env.propertyFromPosition rule pos with
      | none => rfl
      | some p => have := hprop p hp; rw [hnil] at this; simp at this
    simp only [hh, hnp, Range.create2, false_and, exists_false, exists_const, or_false,
      false_or, and_false, reduceCtorEq] at ma mb
    rcases ma with rfl | rfl <;> rcases mb with rfl | rfl <;>
      first | exact ⟨rfl, rfl⟩ | (simp only at hlen ⊢; omega)
  | some f =>
    cases hla : rule.list.getLast? with
    | none =>
      have hnil : rule.list = [] := List.getLast?_eq_none_iff.1 hla
      rw [hnil] at hh; simp at hh
    | some la =>
      have hfm : f ∈ rule.list := List.mem_of_mem_head? hh
      have hlm : la ∈ rule.list := List.mem_of_getLast?_eq_some hla
      obtain ⟨p, hpsrc⟩ : ∃ p, (env.propertyFromPosition rule pos = some p ∨
          (env.propertyFromPosition rule pos = none ∧ rule.list.head? = some p)) := by
        cases hp : env.propertyFromPosition rule pos with
        | none => exact ⟨f, Or.inr ⟨rfl, hh⟩⟩
        | some p => exact ⟨p, Or.inl rfl⟩
      have hpm : p ∈ rule.list := by
        rcases hpsrc with hp | ⟨_, hp⟩
        · exact hprop p hp
        · exact List.mem_of_mem_head? hp
      have hcand : ∀ x : Range, (x = rule.range ∨
          x = Range.create2 (rule.range.start + rule.contentStart) (rule.range.end_ - 1) ∨
          (∃ f la, rule.list.head? = some f ∧ rule.list.getLast? = some la ∧
            x = Range.create2 f.namePosition la.valueRange.end_) ∨
          (∃ p, (env.propertyFromPosition rule pos = some p ∨
              (env.propertyFromPosition rule pos = none ∧ rule.list.head? = some p)) ∧
            (x = p.range ∨ x = p.valueRange))) →
          x = rule.range ∨
          x = ⟨rule.range.start + rule.contentStart, rule.range.end_ - 1⟩ ∨
          x = ⟨f.namePosition, la.valueRange.end_⟩ ∨ x = p.range ∨ x = p.valueRange := by
        intro x hx
        rcases hx with hx | hx | ⟨f', la', hf', hl', hx⟩ | ⟨p', hp', hx⟩
        · exact Or.inl hx
        · exact Or.inr (Or.inl hx)
        · rw [hh] at hf'; rw [hla] at hl'
          cases hf'; cases hl'
          exact Or.inr (Or.inr (Or.inl hx))
        · have hpp : p' = p := by
            rcases hp' with h1 | ⟨h1, h2⟩ <;> rcases hpsrc with h3 | ⟨h3, h4⟩
            · rw [h1] at h3; exact Option.some.inj h3
            · rw [h1] at h3; cases h3
            · rw [h1] at h3; cases h3
            · rw [h2] at h4; exact Option.some.inj h4
          subst hpp
          exact Or.inr (Or.inr (Or.inr hx))
      have ca := hcand a ma
      have cb := hcand b mb
      obtain ⟨⟨pf1, pf2, pf3, pf4, pf5⟩, pf6, pf7⟩ := hall p hpm
      obtain ⟨⟨ff1, ff2, ff3, ff4, ff5⟩, ff6, ff7⟩ := hall f hfm
      obtain ⟨⟨lf1, lf2, lf3, lf4, lf5⟩, lf6, lf7⟩ := hall la hlm
      have hpf := head_or_after rule.list f p hord hh hpm
      have hpl := last_or_before rule.list la p hord hla hpm
      have hfl := head_or_after rule.list f la hord hh hlm
      have hpf2 : (p.namePosition = f.namePosition) ∨ f.range.end_ ≤ p.range.start := by
        rcases hpf with h1 | h1
        · exact Or.inl (by rw [h1])
        · exact Or.inr h1
      have hpl2 : (p.valueRange.end_ = la.valueRange.end_ ∧ p.range.end_ = la.range.end_) ∨
          p.range.end_ ≤ la.range.start := by
        rcases hpl with h1 | h1
        · exact Or.inl (by rw [h1]; exact ⟨rfl, rfl⟩)
        · exact Or.inr h1
      have hfl2 : (la.namePosition = f.namePosition ∧ la.valueRange.end_ = f.valueRange.end_) ∨
          f.range.end_ ≤ la.range.start := by
        rcases hfl with h1 | h1
        · exact Or.inl (by rw [h1]; exact ⟨rfl, rfl⟩)
        · exact Or.inr h1
      clear hpf hpl hfl hcand ma mb hall hord
      rcases ca with rfl | rfl | rfl | rfl | rfl <;>
        rcases cb with rfl | rfl | rfl | rfl | rfl <;>
        first | exact ⟨rfl, rfl⟩ | (simp only at hlen ⊢; omega) | omega

/-- The property that `styleEnv` reports is a declaration of the rule asked
about. -/
theorem styleEnv_property_mem (rule r : CSSRule) (pos : Int) (p : CSSProperty)
    (h : (styleEnv rule).propertyFromPosition r pos = some p) : p ∈ r.list :=
  List.mem_of_find?_eq_some h

/-- Without a usable `lastMatch`, a fresh match of another range than the
selection is selected, whatever the direction. -/
theorem balanceHTML_fresh_selects (env : Env) (s : Session) (m : Match) (direction : String)
    (hr : m.range ≠ s.editor.selection)
    (hno : ∀ l : Match, s.lastMatch = some l →
      l.range ≠ s.editor.selection ∨ s.editor.selection.length = 0)
    (hf : env.find s.editor.content s.editor.selection.start = some m) :
    balanceHTML env s direction =
      (true, ⟨s.editor.createSelection m.range.start m.range.end_, some m⟩) := by
  have hne : m.range.equal s.editor.selection = false := (Range.equal_false_iff _ _).2 hr
  unfold balanceHTML
  cases hl : s.lastMatch with
  | none => simp [hf, hne]
  | some l =>
    rcases hno l hl with h | hz
    · have : l.range.equal s.editor.selection = false := (Range.equal_false_iff _ _).2 h
      simp [this, hf, hne]
    · by_cases hle : l.range.equal s.editor.selection = true
      · simp [hle, hz, hf, hne]
      · simp [hle, hf, hne]

/-- The test `content.charAt(pos) == '<'` on the code units of the text. -/
theorem charAt_eq_lt_iff (content : String) (pos : Int) :
    charAt content pos = some ltUnit ↔
      (0 ≤ pos ∧ (utf16Units content).get? pos.toNat = some '<'.toNat) := by
  have hlt : ltUnit = '<'.toNat := by decide
  unfold charAt
  by_cases h : pos < 0
  · simp only [h, if_true]
    constructor
    · intro h1; cases h1
    · intro h1; omega
  · simp only [h, if_false, hlt]
    constructor
    · intro h1; exact ⟨by omega, h1⟩
    · intro h1; exact h1.2

/-- The lookup offset in terms of the code units of the text. -/
theorem lookupOffset_eq (editor : CaretEditor) :
    lookupOffset editor =
      (if 0 ≤ editor.caretPos ∧
          (utf16Units editor.content).get? editor.caretPos.toNat = some '<'.toNat
        then editor.caretPos + 1 else editor.caretPos) := by
  unfold lookupOffset
  by_cases h : charAt editor.content editor.caretPos = some ltUnit
  · rw [if_pos h, if_pos ((charAt_eq_lt_iff _ _).1 h)]
  · rw [if_neg h, if_neg (fun h2 => h ((charAt_eq_lt_iff _ _).2 h2))]

/-! ## The claims -/

/-- Claim C1: whenever `balance` returns true, in the markup and in the style
branch alike, it has called `createSelection` with a range that is not equal
(by endpoints) to the selection active when the call started; so a second call
on the resulting state either returns false or selects a range different from
the one just selected. -/
theorem balance_never_reselects (env : Env) (s : Session) (direction : Option String)
    (h : (balance env s direction).1 = true) :
    (∃ r : Range, (balance env s direction).2.editor = s.editor.createSelection r.start r.end_ ∧
      r.equal s.editor.selection = false) ∧
    ((balance env (balance env s direction).2 direction).1 = false ∨
      ∃ r : Range, (balance env (balance env s direction).2 direction).2.editor =
          (balance env s direction).2.editor.createSelection r.start r.end_ ∧
        r.equal (balance env s direction).2.editor.selection = false) := by
  constructor
  · obtain ⟨r, hr, hne⟩ := balance_true env s direction h
    exact ⟨r, hr, (Range.equal_false_iff _ _).2 hne⟩
  · cases h2 : (balance env (balance env s direction).2 direction).1 with
    | false => exact Or.inl rfl
    | true =>
      obtain ⟨r, hr, hne⟩ := balance_true env _ direction h2
      exact Or.inr ⟨r, hr, (Range.equal_false_iff _ _).2 hne⟩

/-- The markup scenario `<div><p>Hi</p></div>`: the first `balance('out')` succeeds, so both
conclusions hold there. -/
theorem balance_never_reselects_witness :
    (balance (markupEnv nestedFind) nestedSession (some "out")).1 = true ∧
    ((∃ r : Range, (balance (markupEnv nestedFind) nestedSession (some "out")).2.editor =
        nestedSession.editor.createSelection r.start r.end_ ∧
      r.equal nestedSession.editor.selection = false) ∧
    ((balance (markupEnv nestedFind)
        (balance (markupEnv nestedFind) nestedSession (some "out")).2 (some "out")).1 = false ∨
      ∃ r : Range, (balance (markupEnv nestedFind)
          (balance (markupEnv nestedFind) nestedSession (some "out")).2 (some "out")).2.editor =
          (balance (markupEnv nestedFind) nestedSession (some "out")).2.editor.createSelection
            r.start r.end_ ∧
        r.equal (balance (markupEnv nestedFind) nestedSession (some "out")).2.editor.selection
          = false)) :=
  ⟨by decide, balance_never_reselects (markupEnv nestedFind) nestedSession (some "out") (by decide)⟩

/-- Claim C2, as stated, fails: on `<br/>` with no session state and the caret
at offset 2, the fresh matcher query resolves the unary tag, and
`balance('in')` returns true and selects `[0,5)`. -/
theorem unary_fresh_query_selects :
    brSession.lastMatch = none ∧
    (markupEnv brFind).find brSession.editor.content brSession.editor.selection.start
      = some brMatch ∧
    brMatch.type = "tag" ∧ brMatch.close = false ∧
    (balance (markupEnv brFind) brSession (some "in")).1 = true ∧
    (balance (markupEnv brFind) brSession (some "in")).2.editor.calls = [(0, 5)] := by
  decide

/-- Claim C2, amended: `balance('in')` on a markup document returns false and
calls `createSelection` not at all when `lastMatch` is a unary tag whose range
equals the non-empty selection, and also when no usable `lastMatch` exists
(absent, of another range, or the selection is empty) and the fresh matcher
query at the selection start returns a unary tag whose active range equals the
selection. A fresh query that returns a unary tag whose range differs from the
selection selects that tag and returns true, whatever the direction. -/
theorem unary_in_fails (env : Env) (s : Session) (m : Match)
    (hs : s.editor.syntaxName ≠ "css")
    (ht : m.type = "tag") (hcl : m.close = false) :
    (m.range = s.editor.selection →
      ((s.lastMatch = some m ∧ s.editor.selection.length ≠ 0) ∨
        ((∀ l : Match, s.lastMatch = some l →
            l.range ≠ s.editor.selection ∨ s.editor.selection.length = 0) ∧
          env.find s.editor.content s.editor.selection.start = some m)) →
      (balance env s (some "in")).1 = false ∧
      (balance env s (some "in")).2.editor = s.editor) ∧
    (m.range ≠ s.editor.selection →
      (∀ l : Match, s.lastMatch = some l →
        l.range ≠ s.editor.selection ∨ s.editor.selection.length = 0) →
      env.find s.editor.content s.editor.selection.start = some m →
      ∀ direction : Option String,
        balance env s direction =
          (true, ⟨s.editor.createSelection m.range.start m.range.end_, some m⟩)) := by
  constructor
  · intro hr h
    unfold balance
    simp only [hs, if_false, normalizeDirection_in]
    exact balanceHTML_unary_in env s m ht hcl hr h
  · intro hr hno hf direction
    unfold balance
    simp only [hs, if_false]
    exact balanceHTML_fresh_selects env s m _ hr hno hf

/-- The document `<br/>`: with the tag selected and its match persisted,
`balance('in')` fails and leaves the editor as it was; with the caret at offset
2 and no session state, `balance('in')` selects the tag `[0,5)`. -/
theorem unary_in_fails_witness :
    (brSelected.lastMatch = some brMatch ∧ brSelected.editor.selection.length ≠ 0 ∧
      (balance (markupEnv brFind) brSelected (some "in")).1 = false ∧
      (balance (markupEnv brFind) brSelected (some "in")).2.editor = brSelected.editor) ∧
    (brMatch.range ≠ brSession.editor.selection ∧
      balance (markupEnv brFind) brSession (some "in") =
        (true, ⟨brSession.editor.createSelection 0 5, some brMatch⟩)) :=
  ⟨⟨rfl, by decide,
      (unary_in_fails (markupEnv brFind) brSelected brMatch (by decide) rfl rfl).1 rfl
        (Or.inl ⟨rfl, by decide⟩)⟩,
    ⟨by decide,
      (unary_in_fails (markupEnv brFind) brSession brMatch (by decide) rfl rfl).2 (by decide)
        (by intro l hl; cases hl) (by decide) (some "in")⟩⟩

/-- Claim C3: when a successful markup balancer call takes one of the steps
that switch the active range of a match `m` between its inner and outer range,
and `m.innerRange` lies within `m.outerRange`, then under direction `in` the
call selects `m.innerRange`, which lies within the prior selection, and under
any other direction it selects `m.outerRange`, which contains the prior
selection. -/
theorem switch_step_nested (env : Env) (s : Session) (direction : String) (m : Match)
    (hsw : switchedMatch env s direction = some m)
    (hinc : m.outerRange.includes m.innerRange)
    (hok : (balanceHTML env s direction).1 = true) :
    (direction = "in" →
      (balanceHTML env s direction).2 =
        ⟨s.editor.createSelection m.innerRange.start m.innerRange.end_,
          some { m with range := m.innerRange }⟩ ∧
      s.editor.selection.includes m.innerRange) ∧
    (direction ≠ "in" →
      (balanceHTML env s direction).2 =
        ⟨s.editor.createSelection m.outerRange.start m.outerRange.end_,
          some { m with range := m.outerRange }⟩ ∧
      m.outerRange.includes s.editor.selection) := by
  obtain ⟨l, hl, hle, hne, hin, hout⟩ := switchedMatch_spec env s direction m hsw
  constructor
  · intro hd
    obtain ⟨hr, hsel⟩ := hin hd
    have hb := balanceHTML_of_refine env s direction l _ hl hle hne hr
    rw [hb] at hok ⊢
    by_cases hc : (!m.innerRange.equal s.editor.selection) = true
    · rw [if_pos hc]
      exact ⟨rfl, hsel ▸ hinc⟩
    · rw [if_neg hc] at hok; simp at hok
  · intro hd
    obtain ⟨hr, hsel⟩ := hout hd
    have hb := balanceHTML_of_refine env s direction l _ hl hle hne hr
    rw [hb] at hok ⊢
    by_cases hc : (!m.outerRange.equal s.editor.selection) = true
    · rw [if_pos hc]
      exact ⟨rfl, hsel ▸ hinc⟩
    · rw [if_neg hc] at hok; simp at hok

/-- The `<div>` match at its inner range `[5,14)`: `out` switches it to `[0,20)`, which
contains the selection. -/
theorem switch_step_nested_witness :
    switchedMatch (markupEnv nestedFind) divSession "out" = some divMatch ∧
    divMatch.outerRange.includes divMatch.innerRange ∧
    (balanceHTML (markupEnv nestedFind) divSession "out").1 = true ∧
    (balanceHTML (markupEnv nestedFind) divSession "out").2 =
        ⟨divSession.editor.createSelection 0 20, some { divMatch with range := ⟨0, 20⟩ }⟩ ∧
    divMatch.outerRange.includes divSession.editor.selection :=
  ⟨by decide, by decide, by decide,
    (switch_step_nested (markupEnv nestedFind) divSession "out" divMatch (by decide) (by decide)
      (by decide)).2 (by decide)⟩

/-- Claim C4: for every rule laid out as a parsed rule (with the property at
the position one of its declarations) and every position, the candidate list
of `balanceCSS`, the result of `getCSSRanges` sorted by length, is strictly
ascending in length: for all indices `i < j`,
`length(ranges[i]) < length(ranges[j])`; so no two candidates have equal
length. -/
theorem candidates_strictly_ascending (env : Env) (c : CSSSource) (pos : Int) (rule : CSSRule)
    (hr : resolveRule env c pos = some rule) (hwf : rule.Parsed)
    (hprop : ∀ p, env.propertyFromPosition rule pos = some p → p ∈ rule.list) :
    ∃ l : List Range, getCSSRanges env c pos = some l ∧
      ∀ (i j : Nat) (a b : Range), i < j →
        (sortByLength l).get? i = some a → (sortByLength l).get? j = some b →
        a.length < b.length := by
  obtain ⟨l, hl⟩ : ∃ l, getCSSRanges env c pos = some l := by
    unfold getCSSRanges
    unfold resolveRule at hr
    rw [hr]
    exact ⟨_, rfl⟩
  refine ⟨l, hl, ?_⟩
  intro i j a b hij ha hb
  obtain ⟨hle, hne, _⟩ := candidates_ascending env c pos l hl i j a b hij ha hb
  have ham : a ∈ l := (List.mem_insertionSort lenLe).1 (List.get?_mem ha)
  have hbm : b ∈ l := (List.mem_insertionSort lenLe).1 (List.get?_mem hb)
  rcases lt_or_eq_of_le hle with hlt | heq
  · exact hlt
  · exact absurd (parsed_length_inj env c pos rule l hr hwf hprop hl a b ham hbm heq) hne

/-- The rule of `a{color:red;width:1px}` at offset 9: it is laid out as a parsed
rule, and its first two candidates `[8,11)` and `[2,11)` have lengths 3 and 9. -/
theorem candidates_strictly_ascending_witness :
    (colorRule 11).Parsed ∧
    ∃ l : List Range,
      getCSSRanges (styleEnv (colorRule 11)) (.text "a{color:red;width:1px}") 9 = some l ∧
      ∀ (i j : Nat) (a b : Range), i < j →
        (sortByLength l).get? i = some a → (sortByLength l).get? j = some b →
        a.length < b.length :=
  ⟨by decide,
    candidates_strictly_ascending (styleEnv (colorRule 11)) (.text "a{color:red;width:1px}") 9
      (colorRule 11) (by decide) (by decide)
      (fun p hp => styleEnv_property_mem (colorRule 11) (colorRule 11) 9 p hp)⟩

/-- Claim C5: on the rule of `a{}` the list returned by `getCSSRanges` holds
the empty brace-content range `[2,2)`, of length 0. -/
theorem getCSSRanges_keeps_empty_range :
    getCSSRanges (styleEnv emptyRule) (.text "a{}") 2 = some [⟨0, 3⟩, ⟨2, 2⟩] ∧
    (⟨2, 2⟩ : Range).length = 0 ∧
    (cssCandidates (styleEnv emptyRule) ⟨"a{}", "css", ⟨2, 2⟩, []⟩) = some [⟨2, 2⟩, ⟨0, 3⟩] := by
  decide

/-- Claim C6: round trip `out` then `in`. Style: when the selection is the
candidate at index 0, there are at least two candidates and the second call
derives the same candidate list, `balance('out')` then `balance('in')` both
return true and the final selection is the original one. Markup: when
`lastMatch` is a closed tag with `innerRange ≠ outerRange`, `innerRange` within
`outerRange`, and `lastMatch.range`, `innerRange` and the non-empty selection
coincide, `balance('out')` then `balance('in')` both return true and the final
selection is the original one. In both cases the final selection is equal to,
hence contained in, the original selection. -/
theorem round_trip_out_in (env : Env) (s : Session) :
    (∀ ranges : List Range, s.editor.syntaxName = "css" →
      cssCandidates env s.editor = some ranges →
      ranges.get? 0 = some s.editor.selection → 2 ≤ ranges.length →
      cssCandidates env (balance env s (some "out")).2.editor = some ranges →
      (balance env s (some "out")).1 = true ∧
      (balance env (balance env s (some "out")).2 (some "in")).1 = true ∧
      (balance env (balance env s (some "out")).2 (some "in")).2.editor.selection
        = s.editor.selection ∧
      s.editor.selection.includes
        (balance env (balance env s (some "out")).2 (some "in")).2.editor.selection) ∧
    (∀ m : Match, s.editor.syntaxName ≠ "css" →
      s.lastMatch = some m → m.type = "tag" → m.close = true →
      m.innerRange ≠ m.outerRange → m.outerRange.includes m.innerRange →
      m.range = m.innerRange → m.innerRange = s.editor.selection →
      s.editor.selection.start ≤ s.editor.selection.end_ →
      s.editor.selection.length ≠ 0 →
      (balance env s (some "out")).1 = true ∧
      (balance env (balance env s (some "out")).2 (some "in")).1 = true ∧
      (balance env (balance env s (some "out")).2 (some "in")).2.editor.selection
        = s.editor.selection ∧
      s.editor.selection.includes
        (balance env (balance env s (some "out")).2 (some "in")).2.editor.selection) := by
  constructor
  · intro ranges hs hc h0 h2 hc2
    have h1 : 1 < ranges.length := by omega
    have hg : ranges.get? 1 = some ranges[1] := by
      rw [List.get?_eq_getElem?]; exact List.getElem?_eq_getElem h1
    have hfirst : balanceCSS env s.editor "out" =
        (true, s.editor.createSelection ranges[1].start ranges[1].end_) := by
      rw [balanceCSS_at_index env s.editor "out" ranges 0 hc h0]
      have hb : ¬ (((0 : Nat) : Int) + 1 < 0 ∨ ((0 : Nat) : Int) + 1 ≥ ranges.length) := by
        omega
      have ht : (((0 : Nat) : Int) + 1).toNat = 1 := by omega
      simp only [eq_self_iff_true, if_true]
      rw [if_neg hb, ht, hg]
    have e1 : balance env s (some "out") =
        (true, ⟨s.editor.createSelection ranges[1].start ranges[1].end_, s.lastMatch⟩) := by
      unfold balance
      simp only [hs, if_true, normalizeDirection_out, hfirst]
    rw [e1] at hc2 ⊢
    have hi : ranges.get? 1 =
        some (s.editor.createSelection ranges[1].start ranges[1].end_).selection := hg
    have hsecond : balanceCSS env (s.editor.createSelection ranges[1].start ranges[1].end_) "in" =
        (true, (s.editor.createSelection ranges[1].start ranges[1].end_).createSelection
          s.editor.selection.start s.editor.selection.end_) := by
      rw [balanceCSS_at_index env _ "in" ranges 1 hc2 hi]
      have hio : ¬ ("in" = "out") := by decide
      have hb : ¬ (((1 : Nat) : Int) + -1 < 0 ∨ ((1 : Nat) : Int) + -1 ≥ ranges.length) := by
        omega
      have ht : (((1 : Nat) : Int) + -1).toNat = 0 := by omega
      simp only [hio, if_false]
      rw [if_neg hb, ht, h0]
    have e2 : balance env ⟨s.editor.createSelection ranges[1].start ranges[1].end_, s.lastMatch⟩
        (some "in") =
        (true, ⟨(s.editor.createSelection ranges[1].start ranges[1].end_).createSelection
          s.editor.selection.start s.editor.selection.end_, s.lastMatch⟩) := by
      unfold balance
      have hs2 : (s.editor.createSelection ranges[1].start ranges[1].end_).syntaxName = "css" := hs
      simp only [hs2, if_true, normalizeDirection_in, hsecond]
    simp only [e2]
    refine ⟨trivial, trivial, rfl, ?_⟩
    exact ⟨le_refl _, le_refl _⟩
  · intro m hs hl _ hclose hio hinc hr hsel hwf hne
    obtain ⟨ho, hin⟩ := markup_round_trip env s m hl hclose hio hinc hr hsel hwf hne
    have e1 : balance env s (some "out") =
        (true, ⟨s.editor.createSelection m.outerRange.start m.outerRange.end_,
          some { m with range := m.outerRange }⟩) := by
      unfold balance
      simp only [hs, if_false, normalizeDirection_out, ho]
    have e2 : balance env ⟨s.editor.createSelection m.outerRange.start m.outerRange.end_,
          some { m with range := m.outerRange }⟩ (some "in") =
        (true, ⟨(s.editor.createSelection m.outerRange.start m.outerRange.end_).createSelection
            m.innerRange.start m.innerRange.end_,
          some { m with range := m.innerRange }⟩) := by
      unfold balance
      have hs2 : ¬ (s.editor.createSelection m.outerRange.start m.outerRange.end_).syntaxName
          = "css" := hs
      simp only [hs2, if_false, normalizeDirection_in, hin]
    rw [e1]
    simp only [e2]
    refine ⟨trivial, trivial, hsel, ?_⟩
    have : (⟨m.innerRange.start, m.innerRange.end_⟩ : Range) = s.editor.selection := hsel
    show s.editor.selection.includes ⟨m.innerRange.start, m.innerRange.end_⟩
    rw [this]
    exact ⟨le_refl _, le_refl _⟩

/-- The value `[8,11)` of `a{color:red;width:1px}` and the inner range `[5,14)` of the `<div>`
match both come back after `out` then `in`. -/
theorem round_trip_out_in_witness :
    (cssCandidates (styleEnv (colorRule 11)) (colorSession ⟨8, 11⟩).editor
        = some [⟨8, 11⟩, ⟨2, 11⟩, ⟨2, 21⟩, ⟨0, 22⟩] ∧
      (balance (styleEnv (colorRule 11))
        (balance (styleEnv (colorRule 11)) (colorSession ⟨8, 11⟩) (some "out")).2
        (some "in")).2.editor.selection = ⟨8, 11⟩) ∧
    (divSession.lastMatch = some divMatch ∧
      (balance (markupEnv nestedFind)
        (balance (markupEnv nestedFind) divSession (some "out")).2
        (some "in")).2.editor.selection = ⟨5, 14⟩) :=
  ⟨⟨by decide,
      ((round_trip_out_in (styleEnv (colorRule 11)) (colorSession ⟨8, 11⟩)).1
        [⟨8, 11⟩, ⟨2, 11⟩, ⟨2, 21⟩, ⟨0, 22⟩] (by decide) (by decide) (by decide) (by decide)
        (by decide)).2.2.1⟩,
    ⟨rfl,
      ((round_trip_out_in (markupEnv nestedFind) divSession).2 divMatch (by decide) rfl rfl rfl
        (by decide) (by decide) rfl rfl (by decide) (by decide)).2.2.1⟩⟩

/-- Claim C7, as stated, fails: on `a{color:red;width:1px}` the third call
selects the brace content `[2,21)`, not the rule `[0,22)`, whether the
declaration range of `color:red` ends at 11 or at 12. -/
theorem style_scenario_third_step_not_rule :
    (colorStep 11 "out" (colorStep 11 "out" (colorStep 11 "in" (colorSession ⟨9, 9⟩)))).editor.calls
      = [(8, 11), (2, 11), (2, 21)] ∧
    (colorStep 12 "out" (colorStep 12 "out" (colorStep 12 "in" (colorSession ⟨9, 9⟩)))).editor.calls
      = [(8, 11), (2, 12), (2, 21)] ∧
    (colorStep 11 "out" (colorStep 11 "out" (colorStep 11 "in" (colorSession ⟨9, 9⟩)))).editor.selection
      ≠ ⟨0, 22⟩ ∧
    (colorStep 12 "out" (colorStep 12 "out" (colorStep 12 "in" (colorSession ⟨9, 9⟩)))).editor.selection
      ≠ ⟨0, 22⟩ := by
  decide

/-- Claim C7, amended: on `a{color:red;width:1px}` with the caret at offset 9,
`balance('in')` selects the value `[8,11)`, `balance('out')` then selects the
declaration range `[2,e)` of `color:red`, one more `balance('out')` selects the
brace content `[2,21)`, and a further `balance('out')` selects the rule
`[0,22)`; every call returns true. -/
theorem style_scenario_steps (e : Int) (he : e = 11 ∨ e = 12) :
    (balance (styleEnv (colorRule e)) (colorSession ⟨9, 9⟩) (some "in")).1 = true ∧
    (balance (styleEnv (colorRule e)) (colorStep e "in" (colorSession ⟨9, 9⟩)) (some "out")).1 = true ∧
    (balance (styleEnv (colorRule e))
      (colorStep e "out" (colorStep e "in" (colorSession ⟨9, 9⟩))) (some "out")).1 = true ∧
    (balance (styleEnv (colorRule e))
      (colorStep e "out" (colorStep e "out" (colorStep e "in" (colorSession ⟨9, 9⟩))))
      (some "out")).1 = true ∧
    (colorStep e "out" (colorStep e "out" (colorStep e "out"
      (colorStep e "in" (colorSession ⟨9, 9⟩))))).editor.calls
      = [(8, 11), (2, e), (2, 21), (0, 22)] := by
  rcases he with rfl | rfl <;> decide

/-- The four steps with the declaration range `[2,11)`. -/
theorem style_scenario_steps_witness :
    ((11 : Int) = 11 ∨ (11 : Int) = 12) ∧
    (colorStep 11 "out" (colorStep 11 "out" (colorStep 11 "out"
      (colorStep 11 "in" (colorSession ⟨9, 9⟩))))).editor.calls
      = [(8, 11), (2, 11), (2, 21), (0, 22)] :=
  ⟨Or.inl rfl, (style_scenario_steps 11 (Or.inl rfl)).2.2.2.2⟩

/-- Claim C8: on `<div><p>Hi</p></div>` with no session state and the caret at
offset 6, the first `balance('out')` returns true and selects `[5,14)`, and a
second `balance('out')` on the resulting state returns true and selects
`[0,20)`. -/
theorem markup_scenario_out_out :
    nestedSession.editor.selection = ⟨6, 6⟩ ∧ nestedSession.lastMatch = none ∧
    (balance (markupEnv nestedFind) nestedSession (some "out")).1 = true ∧
    (balance (markupEnv nestedFind) nestedSession (some "out")).2.editor.calls = [(5, 14)] ∧
    (balance (markupEnv nestedFind) nestedSession (some "out")).2.editor.selection = ⟨5, 14⟩ ∧
    (balance (markupEnv nestedFind)
      (balance (markupEnv nestedFind) nestedSession (some "out")).2 (some "out")).1 = true ∧
    (balance (markupEnv nestedFind)
      (balance (markupEnv nestedFind) nestedSession (some "out")).2 (some "out")).2.editor.calls
        = [(5, 14), (0, 20)] := by
  decide

/-- Claim C9: on the style document `a{color:red;width:1px}` with `[2,11)`
selected, `balance` with the direction `up`, which is neither `in` nor `out`,
selects the value `[8,11)`, as direction `in` does, where direction `out`
selects `[2,21)`. -/
theorem unknown_direction_steps_inward :
    toLowerCase "up" ≠ "in" ∧ toLowerCase "up" ≠ "out" ∧
    (balance (styleEnv (colorRule 11)) (colorSession ⟨2, 11⟩) (some "up")).2.editor.calls
      = [(8, 11)] ∧
    (balance (styleEnv (colorRule 11)) (colorSession ⟨2, 11⟩) (some "out")).2.editor.calls
      = [(2, 21)] ∧
    (balance (styleEnv (colorRule 11)) (colorSession ⟨2, 11⟩) (some "in")).2.editor.calls
      = [(8, 11)] := by
  decide

/-- Claim C10: in the style balancer, when the selection is the candidate at
index `i` of the sorted candidate list: at index 0 with direction `in`, and at
the last index with direction `out`, the call returns false and calls
`createSelection` not at all; in every other case it returns true and selects
the candidate at index `i + 1` for `out` and `i - 1` for `in`. -/
theorem style_step_from_candidate (env : Env) (editor : Editor) (direction : String)
    (ranges : List Range) (i : Nat)
    (hc : cssCandidates env editor = some ranges)
    (hi : ranges.get? i = some editor.selection)
    (hd : direction = "in" ∨ direction = "out") :
    (((i = 0 ∧ direction = "in") ∨ (i + 1 = ranges.length ∧ direction = "out")) →
      balanceCSS env editor direction = (false, editor)) ∧
    (¬ ((i = 0 ∧ direction = "in") ∨ (i + 1 = ranges.length ∧ direction = "out")) →
      ∃ r : Range, ranges.get? (if direction = "out" then i + 1 else i - 1) = some r ∧
        balanceCSS env editor direction = (true, editor.createSelection r.start r.end_)) := by
  have hlt : i < ranges.length := by
    rw [List.get?_eq_getElem?] at hi
    exact (List.getElem?_eq_some_iff.1 hi).1
  rw [balanceCSS_at_index env editor direction ranges i hc hi]
  rcases hd with rfl | rfl
  · have hio : ¬ ("in" = "out") := by decide
    simp only [hio, if_false]
    constructor
    · intro h
      have h0 : i = 0 := by
        rcases h with h | h
        · exact h.1
        · exact h.2.elim
      subst h0
      simp
    · intro h
      have h0 : i ≠ 0 := fun h0 => h (Or.inl ⟨h0, trivial⟩)
      have hb : ¬ ((i : Int) + -1 < 0 ∨ (i : Int) + -1 ≥ ranges.length) := by omega
      rw [if_neg hb]
      have ht : ((i : Int) + -1).toNat = i - 1 := by omega
      rw [ht]
      have : i - 1 < ranges.length := by omega
      refine ⟨ranges[i - 1], ?_, ?_⟩
      · rw [List.get?_eq_getElem?]; exact List.getElem?_eq_getElem this
      · rw [List.get?_eq_getElem?, List.getElem?_eq_getElem this]
  · have hoi : ¬ ("out" = "in") := by decide
    simp only [eq_self_iff_true, if_true, hoi]
    constructor
    · intro h
      have h0 : i + 1 = ranges.length := by
        rcases h with h | h
        · exact h.2.elim
        · exact h.1
      have hb : ((i : Int) + 1 < 0 ∨ (i : Int) + 1 ≥ ranges.length) := by omega
      rw [if_pos hb]
    · intro h
      have h0 : i + 1 ≠ ranges.length := fun h0 => h (Or.inr ⟨h0, trivial⟩)
      have hb : ¬ ((i : Int) + 1 < 0 ∨ (i : Int) + 1 ≥ ranges.length) := by omega
      rw [if_neg hb]
      have ht : ((i : Int) + 1).toNat = i + 1 := by omega
      rw [ht]
      have : i + 1 < ranges.length := by omega
      refine ⟨ranges[i + 1], ?_, ?_⟩
      · rw [List.get?_eq_getElem?]; exact List.getElem?_eq_getElem this
      · rw [List.get?_eq_getElem?, List.getElem?_eq_getElem this]

/-- The value `[8,11)` of `a{color:red;width:1px}` is the candidate at index 0; `out` selects the
candidate at index 1. -/
theorem style_step_from_candidate_witness :
    cssCandidates (styleEnv (colorRule 11)) (colorSession ⟨8, 11⟩).editor
      = some [⟨8, 11⟩, ⟨2, 11⟩, ⟨2, 21⟩, ⟨0, 22⟩] ∧
    (∃ r : Range, [(⟨8, 11⟩ : Range), ⟨2, 11⟩, ⟨2, 21⟩, ⟨0, 22⟩].get?
        (if "out" = "out" then 0 + 1 else 0 - 1) = some r ∧
      balanceCSS (styleEnv (colorRule 11)) (colorSession ⟨8, 11⟩).editor "out"
        = (true, (colorSession ⟨8, 11⟩).editor.createSelection r.start r.end_)) :=
  ⟨by decide,
    (style_step_from_candidate (styleEnv (colorRule 11)) (colorSession ⟨8, 11⟩).editor "out"
      [⟨8, 11⟩, ⟨2, 11⟩, ⟨2, 21⟩, ⟨0, 22⟩] 0 (by decide) (by decide) (Or.inr rfl)).2
      (by decide)⟩

/-- Claim C11: on a style document with a non-empty selection, when
`parseFromPosition` finds no rule backward nor forward and parsing the selected
text throws a parse error, `balance` returns false as a value (the error does
not reach the caller) and calls `createSelection` not at all: the session is
left as it was. -/
theorem fragment_parse_error_fails (env : Env) (s : Session) (direction : Option String)
    (e : String)
    (hs : s.editor.syntaxName = "css")
    (hne : s.editor.selection.length ≠ 0)
    (hb : env.parseFromPosition s.editor.content s.editor.selection.start true = none)
    (hf : env.parseFromPosition s.editor.content s.editor.selection.start false = none)
    (hp : env.parse (s.editor.selection.substring s.editor.content) s.editor.selection.start
      = .error e) :
    balance env s direction = (false, s) := by
  have hc : cssCandidates env s.editor = none := by
    unfold cssCandidates
    simp [getCSSRanges, hb, hf, hne, hp]
  unfold balance
  simp only [hs, if_true]
  unfold balanceCSS
  simp only [hc]

/-- The style document `}{` with all of it selected. -/
theorem fragment_parse_error_fails_witness :
    brokenStyle.editor.syntaxName = "css" ∧ brokenStyle.editor.selection.length ≠ 0 ∧
    balance (markupEnv nestedFind) brokenStyle (some "out") = (false, brokenStyle) :=
  ⟨rfl, by decide,
    fragment_parse_error_fails (markupEnv nestedFind) brokenStyle (some "out") "no rule" rfl
      (by decide) rfl rfl rfl⟩

/-- Claim C12, as stated, fails: on `<br/>` with the tag selected and its unary
match as `lastMatch`, `balance('in')` returns false and `lastMatch` is still
that match after the call. -/
theorem unary_failure_keeps_lastMatch :
    (balance (markupEnv brFind) brSelected (some "in")).1 = false ∧
    (balance (markupEnv brFind) brSelected (some "in")).2.lastMatch = some brMatch := by
  decide

/-- Claim C12, amended: whenever the markup balancer returns false, `lastMatch`
is absent after the call, except when the call ends at the early `return false`
(direction `in`, `lastMatch` a unary tag whose range equals the non-empty
selection), where `lastMatch` is left as it was. -/
theorem failure_clears_lastMatch (env : Env) (s : Session) (direction : String)
    (h : (balanceHTML env s direction).1 = false) :
    (balanceHTML env s direction).2.lastMatch = none ∨
    (direction = "in" ∧ ∃ m : Match, s.lastMatch = some m ∧ m.range = s.editor.selection ∧
      s.editor.selection.length ≠ 0 ∧ m.type = "tag" ∧ m.close = false ∧
      (balanceHTML env s direction).2.lastMatch = some m) :=
  balanceHTML_false_lastMatch env s direction h

/-- The document `<br/>` with the tag selected and no session state: `out` finds
the range already selected, fails and leaves `lastMatch` absent. -/
theorem failure_clears_lastMatch_witness :
    (balanceHTML (markupEnv brFind) ⟨brSelected.editor, none⟩ "out").1 = false ∧
    ((balanceHTML (markupEnv brFind) ⟨brSelected.editor, none⟩ "out").2.lastMatch = none ∨
    ("out" = "in" ∧ ∃ m : Match, (⟨brSelected.editor, none⟩ : Session).lastMatch = some m ∧
      m.range = brSelected.editor.selection ∧
      brSelected.editor.selection.length ≠ 0 ∧ m.type = "tag" ∧ m.close = false ∧
      (balanceHTML (markupEnv brFind) ⟨brSelected.editor, none⟩ "out").2.lastMatch = some m)) :=
  ⟨by decide,
    failure_clears_lastMatch (markupEnv brFind) ⟨brSelected.editor, none⟩ "out" (by decide)⟩

/-- Claim C13: when `lastMatch` is a unary tag (`close == false`) whose range
equals the non-empty selection, `balance('in')` returns false, calls
`createSelection` not at all, queries the matcher at no offset, and leaves
`lastMatch` (match and active range) exactly as it was: the whole session is
unchanged. -/
theorem unary_in_keeps_session (env : Env) (s : Session) (m : Match)
    (hs : s.editor.syntaxName ≠ "css")
    (hl : s.lastMatch = some m) (ht : m.type = "tag") (hcl : m.close = false)
    (hr : m.range = s.editor.selection) (hne : s.editor.selection.length ≠ 0) :
    balance env s (some "in") = (false, s) ∧
    (balance env s (some "in")).2.editor.calls = s.editor.calls ∧
    (balance env s (some "in")).2.lastMatch = some m ∧
    matcherQueries env s "in" = [] := by
  have hb : balance env s (some "in") = (false, s) := by
    unfold balance
    simp only [hs, if_false, normalizeDirection_in]
    exact balanceHTML_unary_in_eq env s m hl ht hcl hr hne
  refine ⟨hb, by rw [hb], by rw [hb]; exact hl, ?_⟩
  have heq : m.range.equal s.editor.selection = true := (Range.equal_iff _ _).2 hr
  unfold matcherQueries
  simp [hl, heq, hne, ht, hcl]

/-- The document `<br/>` with the tag selected and its match as session state. -/
theorem unary_in_keeps_session_witness :
    brSelected.lastMatch = some brMatch ∧ brMatch.close = false ∧
    balance (markupEnv brFind) brSelected (some "in") = (false, brSelected) ∧
    matcherQueries (markupEnv brFind) brSelected "in" = [] :=
  ⟨rfl, rfl,
    (unary_in_keeps_session (markupEnv brFind) brSelected brMatch (by decide) rfl rfl rfl rfl
      (by decide)).1,
    (unary_in_keeps_session (markupEnv brFind) brSelected brMatch (by decide) rfl rfl rfl rfl
      (by decide)).2.2.2⟩

/-- Claim C14: let `p` be the lookup offset, one past the caret when the code
unit at the caret is `<` and the caret itself otherwise. `goToMatchingPair`
returns true exactly when the tag matcher at `p` returns a tag with a `close`
member; it then sets the caret to `close.range.start` when `p` is inside
`open.range` and to `open.range.start` otherwise; when it returns false the
caret is not moved. On `<b>x</b>` with the caret at offset 1 the caret ends at
offset 4; with the caret at offset 0, on `<`, the matcher is asked at 1 and the
caret ends at 4 as well; after a character of two code units the offsets count
code units. -/
theorem goToMatchingPair_spec :
    (∀ (tag : String → Int → Option Tag) (editor : CaretEditor) (p : Int),
      p = (if 0 ≤ editor.caretPos ∧
            (utf16Units editor.content).get? editor.caretPos.toNat = some '<'.toNat
          then editor.caretPos + 1 else editor.caretPos) →
      ((goToMatchingPairAction tag editor).1 = true ↔
        ∃ t c, tag editor.content p = some t ∧ t.close = some c) ∧
      (∀ t c, tag editor.content p = some t → t.close = some c →
        (goToMatchingPairAction tag editor).2 =
          editor.setCaretPos
            (if t.open_.range.inside p then c.range.start else t.open_.range.start)) ∧
      ((goToMatchingPairAction tag editor).1 = false →
        (goToMatchingPairAction tag editor).2 = editor)) ∧
    ((goToMatchingPairAction bTagMatcher (bEditor 1)).1 = true ∧
      (goToMatchingPairAction bTagMatcher (bEditor 1)).2.caretPos = 4) ∧
    (bTagMatcher (bEditor 0).content 0 = none ∧
      (goToMatchingPairAction bTagMatcher (bEditor 0)).1 = true ∧
      (goToMatchingPairAction bTagMatcher (bEditor 0)).2.caretPos = 4) ∧
    (wideTagMatcher (wideEditor 2).content 2 = none ∧
      (goToMatchingPairAction wideTagMatcher (wideEditor 2)).1 = true ∧
      (goToMatchingPairAction wideTagMatcher (wideEditor 2)).2.caretPos = 6) := by
  refine ⟨fun tag editor p hp => ?_, by decide, by decide, by decide⟩
  have hlook : lookupOffset editor = p := by rw [hp]; exact lookupOffset_eq editor
  refine ⟨?_, ?_, ?_⟩
  · unfold goToMatchingPairAction
    simp only [hlook]
    cases ht : tag editor.content p with
    | none => simp
    | some t =>
      cases hc : t.close with
      | none => simp [hc]
      | some c =>
        by_cases hi : t.open_.range.inside p = true
        · simp [hc, hi]
        · simp [hc, hi]
  · intro t c ht hc
    unfold goToMatchingPairAction
    simp only [hlook, ht, hc]
    by_cases hi : t.open_.range.inside p = true
    · simp [hi]
    · simp [hi]
  · intro h
    unfold goToMatchingPairAction at h ⊢
    simp only [hlook] at h ⊢
    cases ht : tag editor.content p with
    | none => rfl
    | some t =>
      cases hc : t.close with
      | none => simp [hc]
      | some c =>
        simp only [ht, hc] at h
        by_cases hi : t.open_.range.inside p = true
        · simp [hi] at h
        · simp [hi] at h

/-- The document `<b>x</b>` with the caret at offset 0: the code unit there is
`<`, the pair is found at offset 1, inside the open tag `[0,3)`, and the caret
moves to 4. -/
theorem goToMatchingPair_spec_witness :
    (utf16Units (bEditor 0).content).get? (bEditor 0).caretPos.toNat = some '<'.toNat ∧
    bTagMatcher (bEditor 0).content 1 = some bTag ∧
    (goToMatchingPairAction bTagMatcher (bEditor 0)).2 =
      (bEditor 0).setCaretPos (if bTag.open_.range.inside 1 then 4 else 0) :=
  ⟨by decide, by decide,
    (goToMatchingPair_spec.1 bTagMatcher (bEditor 0) 1 (by decide)).2.1 bTag ⟨⟨4, 8⟩⟩
      (by decide) rfl⟩

/-- Claim C15: in the style balancer, when no candidate equals the selection,
then for every direction: the call selects the first candidate of the sorted
list with `start < selection.start ≤ end`, which is of minimal length among the
candidates satisfying that; and the call returns false exactly when no
candidate satisfies it. -/
theorem style_first_enclosing_candidate (env : Env) (editor : Editor) (direction : String)
    (ranges : List Range)
    (hc : cssCandidates env editor = some ranges)
    (hn : ∀ r ∈ ranges, r.equal editor.selection = false) :
    (∀ (before after : List Range) (r : Range), ranges = before ++ r :: after →
      (∀ a ∈ before, ¬ (a.start < editor.selection.start ∧ editor.selection.start ≤ a.end_)) →
      (r.start < editor.selection.start ∧ editor.selection.start ≤ r.end_) →
      balanceCSS env editor direction = (true, editor.createSelection r.start r.end_) ∧
      ∀ r' ∈ ranges, (r'.start < editor.selection.start ∧ editor.selection.start ≤ r'.end_) →
        r.length ≤ r'.length) ∧
    ((balanceCSS env editor direction).1 = false ↔
      ∀ r ∈ ranges, ¬ (r.start < editor.selection.start ∧ editor.selection.start ≤ r.end_)) := by
  have hmem : editor.selection ∉ ranges := fun h =>
    absurd (Range.equal_self editor.selection) (by rw [hn _ h]; simp)
  have hbal := balanceCSS_not_candidate env editor direction ranges hc hmem
  constructor
  · intro before after r hsplit hb hr
    have hfind : ranges.find? (fun r => r.cmpLtGte editor.selection.start) = some r :=
      find?_of_split ranges before after r _ hsplit
        (fun a ha => by
          have := hb a ha
          rw [← Range.cmpLtGte_iff] at this
          simpa using this)
        ((Range.cmpLtGte_iff _ _).2 hr)
    refine ⟨by rw [hbal, hfind], ?_⟩
    intro r' hr' hcmp
    exact lenLe_of_split ranges before after r r' (cssCandidates_sorted env editor ranges hc)
      hsplit hr' (fun hin => hb r' hin hcmp)
  · rw [hbal]
    cases hfind : ranges.find? (fun r => r.cmpLtGte editor.selection.start) with
    | none =>
      simp only [true_iff]
      intro r hr
      rw [← Range.cmpLtGte_iff]
      have := (List.find?_eq_none.1 hfind) r hr
      simpa using this
    | some r =>
      simp only [Bool.true_eq_false, false_iff]
      intro hall
      have hr := List.mem_of_find?_eq_some hfind
      have hp := List.find?_some hfind
      exact hall r hr ((Range.cmpLtGte_iff _ _).1 hp)

/-- The caret at offset 9 of `a{color:red;width:1px}`: the value `[8,11)` is the
first candidate and encloses the caret. -/
theorem style_first_enclosing_candidate_witness :
    cssCandidates (styleEnv (colorRule 11)) (colorSession ⟨9, 9⟩).editor
      = some ([] ++ (⟨8, 11⟩ : Range) :: [⟨2, 11⟩, ⟨2, 21⟩, ⟨0, 22⟩]) ∧
    balanceCSS (styleEnv (colorRule 11)) (colorSession ⟨9, 9⟩).editor "in"
      = (true, (colorSession ⟨9, 9⟩).editor.createSelection 8 11) :=
  ⟨by decide,
    ((style_first_enclosing_candidate (styleEnv (colorRule 11)) (colorSession ⟨9, 9⟩).editor "in"
      [⟨8, 11⟩, ⟨2, 11⟩, ⟨2, 21⟩, ⟨0, 22⟩] (by decide) (by decide)).1
      [] [⟨2, 11⟩, ⟨2, 21⟩, ⟨0, 22⟩] ⟨8, 11⟩ rfl (by simp) (by decide)).1⟩

/-- Claim C16: a `lastMatch` whose active range is not equal to the selection
changes nothing: the markup balancer returns the same value, makes the same
`createSelection` call (or none) and leaves the same session state as it does
with `lastMatch` absent. -/
theorem stale_lastMatch_ignored (env : Env) (editor : Editor) (m : Match) (direction : String)
    (h : m.range.equal editor.selection = false) :
    balanceHTML env ⟨editor, some m⟩ direction = balanceHTML env ⟨editor, none⟩ direction :=
  balanceHTML_discard env editor m direction ((Range.equal_false_iff _ _).1 h)

/-- The caret at offset 6 of `<div><p>Hi</p></div>` with the `<div>` match, of
range `[5,14)`, left over. -/
theorem stale_lastMatch_ignored_witness :
    staleSession.lastMatch = some divMatch ∧
    divMatch.range.equal staleSession.editor.selection = false ∧
    balanceHTML (markupEnv nestedFind) ⟨staleSession.editor, some divMatch⟩ "out"
      = balanceHTML (markupEnv nestedFind) ⟨staleSession.editor, none⟩ "out" :=
  ⟨rfl, by decide,
    stale_lastMatch_ignored (markupEnv nestedFind) staleSession.editor divMatch "out"
      (by decide)⟩

/-- Claim C17: after a markup balancer call that returns true, `lastMatch` is
present and its range is the range just passed to `createSelection`, which is
the new selection; so the validation `lastMatch.range.equal(sel)` of an
immediately following call holds. -/
theorem success_records_lastMatch (env : Env) (s : Session) (direction : String)
    (h : (balanceHTML env s direction).1 = true) :
    ∃ m : Match, (balanceHTML env s direction).2.lastMatch = some m ∧
      (balanceHTML env s direction).2.editor =
        s.editor.createSelection m.range.start m.range.end_ ∧
      (balanceHTML env s direction).2.editor.calls =
        s.editor.calls ++ [(m.range.start, m.range.end_)] ∧
      m.range.equal (balanceHTML env s direction).2.editor.selection = true := by
  obtain ⟨m, hm, _⟩ := balanceHTML_true env s direction h
  refine ⟨m, by rw [hm], by rw [hm], by rw [hm]; rfl, ?_⟩
  rw [hm]
  exact (Range.equal_iff _ _).2 rfl

/-- The first `out` on `<div><p>Hi</p></div>` with the caret at offset 6. -/
theorem success_records_lastMatch_witness :
    (balanceHTML (markupEnv nestedFind) nestedSession "out").1 = true ∧
    ∃ m : Match, (balanceHTML (markupEnv nestedFind) nestedSession "out").2.lastMatch = some m ∧
      (balanceHTML (markupEnv nestedFind) nestedSession "out").2.editor =
        nestedSession.editor.createSelection m.range.start m.range.end_ ∧
      (balanceHTML (markupEnv nestedFind) nestedSession "out").2.editor.calls =
        nestedSession.editor.calls ++ [(m.range.start, m.range.end_)] ∧
      m.range.equal (balanceHTML (markupEnv nestedFind) nestedSession "out").2.editor.selection
        = true :=
  ⟨by decide, success_records_lastMatch (markupEnv nestedFind) nestedSession "out" (by decide)⟩

/-- Claim C18: in the markup and in the style branch alike, `balance` calls
`createSelection` exactly once when it returns true and not at all when it
returns false; on failure the editor, and so the host selection, is left as it
was. -/
theorem createSelection_once_or_never (env : Env) (s : Session) (direction : Option String) :
    ((balance env s direction).1 = true →
      ∃ a b : Int, (balance env s direction).2.editor.calls = s.editor.calls ++ [(a, b)] ∧
        (balance env s direction).2.editor = s.editor.createSelection a b) ∧
    ((balance env s direction).1 = false →
      (balance env s direction).2.editor = s.editor ∧
      (balance env s direction).2.editor.calls = s.editor.calls ∧
      (balance env s direction).2.editor.selection = s.editor.selection) := by
  constructor
  · intro h
    obtain ⟨r, hr, _⟩ := balance_true env s direction h
    exact ⟨r.start, r.end_, by rw [hr]; rfl, hr⟩
  · intro h
    have he : (balance env s direction).2.editor = s.editor := by
      unfold balance at h ⊢
      by_cases hs : s.editor.syntaxName = "css"
      · simp only [hs, if_true] at h ⊢
        rw [balanceCSS_false env s.editor _ h]
      · simp only [hs, if_false] at h ⊢
        exact balanceHTML_false_editor env s _ h
    exact ⟨he, by rw [he], by rw [he]⟩

/-- The first `out` on the markup scenario succeeds with one call; `in` on the
innermost style candidate fails with none. -/
theorem createSelection_once_or_never_witness :
    (∃ a b : Int,
      (balance (markupEnv nestedFind) nestedSession (some "out")).2.editor.calls
        = nestedSession.editor.calls ++ [(a, b)] ∧
      (balance (markupEnv nestedFind) nestedSession (some "out")).2.editor
        = nestedSession.editor.createSelection a b) ∧
    (balance (styleEnv (colorRule 11)) (colorSession ⟨8, 11⟩) (some "in")).2.editor
      = (colorSession ⟨8, 11⟩).editor :=
  ⟨(createSelection_once_or_never (markupEnv nestedFind) nestedSession (some "out")).1
      (by decide),
    ((createSelection_once_or_never (styleEnv (colorRule 11)) (colorSession ⟨8, 11⟩)
      (some "in")).2 (by decide)).1⟩

/-- Claim C19: when the code units at `open.range.start` and at
`close.range.start` are both `<`, the tag matcher returns the same closed pair
one past each of the two offsets, and `open.range.start + 1` is inside
`open.range` while `close.range.start + 1` is not, then from the caret at
`open.range.start` the first `goToMatchingPair` returns true and moves the caret
to `close.range.start`, and a second one returns true and moves it back to
`open.range.start`. -/
theorem goToMatchingPair_involution (tag : String → Int → Option Tag) (editor : CaretEditor)
    (t : Tag) (c : TagPart)
    (hcaret : editor.caretPos = t.open_.range.start)
    (hclose : t.close = some c)
    (ho : 0 ≤ t.open_.range.start ∧
      (utf16Units editor.content).get? t.open_.range.start.toNat = some '<'.toNat)
    (hc : 0 ≤ c.range.start ∧
      (utf16Units editor.content).get? c.range.start.toNat = some '<'.toNat)
    (hto : tag editor.content (t.open_.range.start + 1) = some t)
    (htc : tag editor.content (c.range.start + 1) = some t)
    (hin : t.open_.range.inside (t.open_.range.start + 1) = true)
    (hout : t.open_.range.inside (c.range.start + 1) = false) :
    (goToMatchingPairAction tag editor).1 = true ∧
    (goToMatchingPairAction tag editor).2.caretPos = c.range.start ∧
    (goToMatchingPairAction tag (goToMatchingPairAction tag editor).2).1 = true ∧
    (goToMatchingPairAction tag (goToMatchingPairAction tag editor).2).2.caretPos
      = t.open_.range.start := by
  have l1 : lookupOffset editor = t.open_.range.start + 1 := by
    rw [lookupOffset_eq, hcaret, if_pos ho]
  have l2 : lookupOffset (editor.setCaretPos c.range.start) = c.range.start + 1 := by
    rw [lookupOffset_eq]
    exact if_pos hc
  have h1 : goToMatchingPairAction tag editor = (true, editor.setCaretPos c.range.start) := by
    unfold goToMatchingPairAction
    simp [l1, hto, hclose, hin]
  have h2 : goToMatchingPairAction tag (editor.setCaretPos c.range.start) =
      (true, (editor.setCaretPos c.range.start).setCaretPos t.open_.range.start) := by
    have hcont : (editor.setCaretPos c.range.start).content = editor.content := rfl
    unfold goToMatchingPairAction
    simp [l2, hcont, htc, hclose, hout]
  rw [h1]
  simp only [h2]
  exact ⟨trivial, rfl, trivial, rfl⟩

/-- The pair of `<b>x</b>`, from the caret at 0 to 4 and back to 0; and the pair
after a character of two code units, from the caret at 2 to 6 and back to 2. -/
theorem goToMatchingPair_involution_witness :
    ((bEditor 0).caretPos = bTag.open_.range.start ∧ bTag.close = some ⟨⟨4, 8⟩⟩ ∧
      (goToMatchingPairAction bTagMatcher (bEditor 0)).2.caretPos = 4 ∧
      (goToMatchingPairAction bTagMatcher
        (goToMatchingPairAction bTagMatcher (bEditor 0)).2).2.caretPos = 0) ∧
    ((goToMatchingPairAction wideTagMatcher (wideEditor 2)).2.caretPos = 6 ∧
      (goToMatchingPairAction wideTagMatcher
        (goToMatchingPairAction wideTagMatcher (wideEditor 2)).2).2.caretPos = 2) :=
  ⟨⟨rfl, rfl,
      (goToMatchingPair_involution bTagMatcher (bEditor 0) bTag ⟨⟨4, 8⟩⟩ rfl rfl (by decide)
        (by decide) (by decide) (by decide) (by decide) (by decide)).2.1,
      (goToMatchingPair_involution bTagMatcher (bEditor 0) bTag ⟨⟨4, 8⟩⟩ rfl rfl (by decide)
        (by decide) (by decide) (by decide) (by decide) (by decide)).2.2.2⟩,
    ⟨(goToMatchingPair_involution wideTagMatcher (wideEditor 2) wideTag ⟨⟨6, 10⟩⟩ rfl rfl
        (by decide) (by decide) (by decide) (by decide) (by decide) (by decide)).2.1,
      (goToMatchingPair_involution wideTagMatcher (wideEditor 2) wideTag ⟨⟨6, 10⟩⟩ rfl rfl
        (by decide) (by decide) (by decide) (by decide) (by decide) (by decide)).2.2.2⟩⟩

end Balance
